import Mathlib

/-!
Verification of the FORGE remediation-scheduling engine
(forge_risk_engine.py).

The development shallowly embeds the data model, the dataset validator,
the two optimization models built by solve_with_cp_sat and
solve_with_pulp, and the analysis pipeline.  Machine floats of the
source are modelled as rationals; Python ints as Int.  The two solver
back ends (ortools CP-SAT and PuLP/CBC) are third-party libraries: the
constraint systems the source constructs are embedded exactly, and a
solver call is treated as returning a cost-minimal member of the
feasible set when one exists and None otherwise.
-/

/-- Python round() with banker's rounding (round half to even), as used
by int(round(x)) in solve_with_cp_sat. -/
def pyRound (q : ℚ) : Int :=
  if q - Int.floor q < 1/2 then Int.floor q
  else if 1/2 < q - Int.floor q then Int.floor q + 1
  else if Int.floor q % 2 = 0 then Int.floor q else Int.floor q + 1

/-- One risk record after _standardize_risk_frame: ID, LeadTime and
Capacity are ints; Score, Res_Score and CTA are floats (modelled as
rationals); Predecessors is a list of ints. -/
structure RiskTask where
  id : Int
  score : ℚ
  resScore : ℚ
  cta : ℚ
  leadTime : Int
  capacity : Int
  predecessors : List Int
  deriving Repr, DecidableEq

/-- 0/1 value of a boolean decision variable. -/
def ind (b : Bool) : Int := if b then 1 else 0

/-- float(df["Score"].sum()). -/
def totalScore (ds : List RiskTask) : ℚ := (ds.map (fun r => r.score)).sum

/-- lead_time_by_id lookup used by solve_with_pulp. -/
def leadOf (ds : List RiskTask) (i : Int) : Int :=
  match ds.find? (fun r => r.id == i) with
  | some r => r.leadTime
  | Option.none => 0

/-- score_reduction_needed = max(0, math.ceil(total_original - target_score_max)). -/
def scoreReductionNeeded (ds : List RiskTask) (targetScoreMax : ℚ) : Int :=
  max 0 (Int.ceil (totalScore ds - targetScoreMax))

/-- Value of sum(reductions) in solve_with_cp_sat: each term is
x[rid] * int(round(Score - Res_Score)). -/
def selReduction (ds : List RiskTask) (sel : Int → Bool) : Int :=
  (ds.map (fun r => ind (sel r.id) * pyRound (r.score - r.resScore))).sum

/-- The CP-SAT objective sum(costs): each term is x[rid] * int(round(CTA)). -/
def cpObjective (ds : List RiskTask) (sel : Int → Bool) : Int :=
  (ds.map (fun r => ind (sel r.id) * pyRound r.cta)).sum

/-- Exact reduction of the selected tasks, as summed over the returned
schedule rows (float(r.Score - r.Res_Score)). -/
def selFloatReduction (ds : List RiskTask) (sel : Int → Bool) : ℚ :=
  (ds.map (fun r => if sel r.id then r.score - r.resScore else 0)).sum

/-- Exact cost of the selected tasks, as summed over the returned
schedule rows (float(r.CTA)); also the PuLP objective. -/
def selCost (ds : List RiskTask) (sel : Int → Bool) : ℚ :=
  (ds.map (fun r => if sel r.id then r.cta else 0)).sum

/-- Number of selected tasks (len of the returned schedule). -/
def selCount (ds : List RiskTask) (sel : Int → Bool) : Nat :=
  (ds.filter (fun r => sel r.id)).length

/-! ## The CP-SAT model (solve_with_cp_sat)

Decision variables per risk r: x[r] (selection), start_r and end_r in
[0, deadline], and an optional interval of size LeadTime present iff
x[r].  An assignment gives a value to each variable. -/

structure CpAssign where
  sel : Int → Bool
  start : Int → Int
  endDay : Int → Int

/-- Demand counted by AddCumulative at time t: each present interval
(selected task) with start <= t < end contributes its Capacity. -/
def cpDemandAt (ds : List RiskTask) (a : CpAssign) (t : Int) : Int :=
  (ds.map (fun r =>
    if a.sel r.id = true ∧ a.start r.id ≤ t ∧ t < a.endDay r.id then r.capacity else 0)).sum

/-- The constraint system built by solve_with_cp_sat:
variable bounds plus the optional-interval link (end = start + duration
when present), the reduction constraint, the precedence constraints
(x[r] <= x[pred]; start_r >= end_pred enforced when x[r]),
and the cumulative resource constraint. -/
def CpFeasible (ds : List RiskTask) (deadline maxCapacity : Int)
    (targetScoreMax : ℚ) (a : CpAssign) : Prop :=
  (∀ r ∈ ds,
     0 ≤ a.start r.id ∧ a.start r.id ≤ deadline ∧
     0 ≤ a.endDay r.id ∧ a.endDay r.id ≤ deadline ∧
     (a.sel r.id = true → a.endDay r.id = a.start r.id + r.leadTime)) ∧
  scoreReductionNeeded ds targetScoreMax ≤ selReduction ds a.sel ∧
  (∀ r ∈ ds, ∀ p ∈ r.predecessors,
     (a.sel r.id = true → a.sel p = true) ∧
     (a.sel r.id = true → a.endDay p ≤ a.start r.id)) ∧
  (∀ t : Int, cpDemandAt ds a t ≤ maxCapacity)

/-- The instance handed to the CP-SAT solver admits a solution. -/
def CpSatFeasibleInstance (ds : List RiskTask) (deadline maxCapacity : Int)
    (targetScoreMax : ℚ) : Prop :=
  ∃ a, CpFeasible ds deadline maxCapacity targetScoreMax a

/-- An assignment the CP-SAT solver may return: feasible and minimizing
the (integer-rounded) objective. -/
def CpObjOptimal (ds : List RiskTask) (deadline maxCapacity : Int)
    (targetScoreMax : ℚ) (a : CpAssign) : Prop :=
  CpFeasible ds deadline maxCapacity targetScoreMax a ∧
  ∀ b, CpFeasible ds deadline maxCapacity targetScoreMax b →
    cpObjective ds a.sel ≤ cpObjective ds b.sel

/-! ## The PuLP model (solve_with_pulp)

Binary variables x[i][t] for t in times = range(deadline + 1) and
selected[i]. -/

structure PulpAssign where
  sel : Int → Bool
  startAt : Int → Int → Bool

/-- The linear expression sum(t * x[i][t] for t in times) used as the
symbolic start of task i. -/
def pulpStartSym (a : PulpAssign) (deadline i : Int) : Int :=
  ∑ t ∈ Finset.Icc 0 deadline, t * ind (a.startAt i t)

/-- Resource usage at day t: cap_i times the windowed sum of x[i][k]
for k in range(max(0, t - duration + 1), t + 1). -/
def pulpUsage (ds : List RiskTask) (a : PulpAssign) (t : Int) : Int :=
  (ds.map (fun r =>
    r.capacity * ∑ k ∈ Finset.Icc (max 0 (t - r.leadTime + 1)) t, ind (a.startAt r.id k))).sum

/-- The constraint system built by solve_with_pulp.  The first conjunct
records that x[i][t] variables exist only for t in times.  Then: one
start iff selected; starts that would overrun the deadline forced to 0;
the target-score constraint on exact values; selection monotonicity and
big-M precedence with big_m = deadline * 2; and the per-day windowed
resource constraint. -/
def PulpFeasible (ds : List RiskTask) (deadline maxCapacity : Int)
    (targetScoreMax : ℚ) (a : PulpAssign) : Prop :=
  (∀ r ∈ ds, ∀ t : Int, a.startAt r.id t = true → 0 ≤ t ∧ t ≤ deadline) ∧
  (∀ r ∈ ds, (∑ t ∈ Finset.Icc 0 deadline, ind (a.startAt r.id t)) = ind (a.sel r.id)) ∧
  (∀ r ∈ ds, ∀ t : Int, deadline - r.leadTime + 1 ≤ t → t ≤ deadline →
     a.startAt r.id t = false) ∧
  (totalScore ds - selFloatReduction ds a.sel ≤ targetScoreMax) ∧
  (∀ r ∈ ds, ∀ p ∈ r.predecessors,
     ind (a.sel r.id) ≤ ind (a.sel p) ∧
     pulpStartSym a deadline p + leadOf ds p - deadline * 2 * (1 - ind (a.sel r.id)) ≤
       pulpStartSym a deadline r.id) ∧
  (∀ t ∈ Finset.Icc (0 : Int) deadline, pulpUsage ds a t ≤ maxCapacity)

/-- The instance handed to CBC admits a solution. -/
def PulpFeasibleInstance (ds : List RiskTask) (deadline maxCapacity : Int)
    (targetScoreMax : ℚ) : Prop :=
  ∃ a, PulpFeasible ds deadline maxCapacity targetScoreMax a

/-- An assignment CBC may return: feasible and minimizing the exact
cost objective. -/
def PulpOptimal (ds : List RiskTask) (deadline maxCapacity : Int)
    (targetScoreMax : ℚ) (a : PulpAssign) : Prop :=
  PulpFeasible ds deadline maxCapacity targetScoreMax a ∧
  ∀ b, PulpFeasible ds deadline maxCapacity targetScoreMax b →
    selCost ds a.sel ≤ selCost ds b.sel

/-- Extraction of the start day of a selected task from a PuLP solution
(the first t in times with x[i][t] = 1, defaulting to 0). -/
def extractStart (a : PulpAssign) (deadline i : Int) : Int :=
  match (((List.range (deadline.toNat + 1)).map Int.ofNat).find?
      (fun t => a.startAt i t)) with
  | some t => t
  | Option.none => 0

/-! ## Predecessor-field normalization (_standardize_risk_frame) -/

/-- Value of a Python int literal digit run: decimal digits with single
underscores allowed strictly between digits (the digitpart grammar of
int()).  The Bool flag records whether the previous character was a
digit (so an underscore may follow); the run must end on a digit. -/
def digitsValAux : Nat → Bool → List Char → Option Nat
  | acc, true, [] => some acc
  | _, false, [] => Option.none
  | acc, prevDigit, c :: rest =>
    if c.isDigit then digitsValAux (acc * 10 + (c.toNat - 48)) true rest
    else if c = '_' ∧ prevDigit then digitsValAux acc false rest
    else Option.none

/-- Value of a nonempty digit run (underscores between digits allowed),
Option.none otherwise. -/
def digitsVal (cs : List Char) : Option Nat :=
  digitsValAux 0 false cs

/-- Python int(str) on an already-stripped string: optional sign then
decimal digits with optional single underscores between digits. -/
def parseIntChars (cs : List Char) : Option Int :=
  match cs with
  | '-' :: rest => (digitsVal rest).map (fun n => -(n : Int))
  | '+' :: rest => (digitsVal rest).map (fun n => (n : Int))
  | rest => (digitsVal rest).map (fun n => (n : Int))

/-- Whitespace recognized by Python str.strip(). -/
def isSpace (c : Char) : Bool :=
  c == ' ' || c == Char.ofNat 9 || c == Char.ofNat 10 || c == Char.ofNat 13

/-- Python str.strip(): drop whitespace from both ends. -/
def pyStripChars (cs : List Char) : List Char :=
  ((cs.dropWhile isSpace).reverse.dropWhile isSpace).reverse

/-- Python str.split(sep) for a one-character separator: the empty
string yields one empty piece. -/
def splitChars (sep : Char) : List Char → List (List Char)
  | [] => [[]]
  | c :: cs =>
    if c == sep then [] :: splitChars sep cs
    else
      match splitChars sep cs with
      | [] => [[c]]
      | g :: gs => (c :: g) :: gs

/-- A decoded JSON value as Python json.loads produces it.  Floats are
kept as the exact decimal mantissa/exponent pair of the literal (value
mantissa times ten to the exponent): the rounding of CPython floats to
binary64 is outside the model and observable through int() only for
literals with at least seventeen significant digits.  Object member
values are validated during parsing but not retained: the program only
ever asks a dict whether it is a list or converts it with int(), and
both ignore the members. -/
inductive PyJson where
  | jnull
  | jbool (b : Bool)
  | jint (n : Int)
  | jfloat (m : Int) (e : Int)
  | jinf (neg : Bool)
  | jnan
  | jstr (s : List Char)
  | jlist (l : List PyJson)
  | jobj

/-- Outcome of json.loads: a decode failure (json.JSONDecodeError, the
one exception normalize_predecessors catches), a nesting-depth failure
(RecursionError, uncaught), or a decoded value. -/
inductive JsonOutcome where
  | decodeError
  | uncaughtDepth
  | value (v : PyJson)

/-- Skip the whitespace json.loads skips between tokens (space, tab,
newline, carriage return). -/
def skipWs : List Char → List Char
  | [] => []
  | c :: rest => if isSpace c then skipWs rest else c :: rest

/-- Value of a hexadecimal digit. -/
def hexVal (c : Char) : Option Nat :=
  if c.isDigit then some (c.toNat - 48)
  else if 97 ≤ c.toNat ∧ c.toNat ≤ 102 then some (c.toNat - 87)
  else if 65 ≤ c.toNat ∧ c.toNat ≤ 70 then some (c.toNat - 55)
  else Option.none

/-- The single-character JSON string escapes. -/
def jsonEscChar (c : Char) : Option Char :=
  if c = Char.ofNat 34 then some (Char.ofNat 34)
  else if c = '\\' then some '\\'
  else if c = '/' then some '/'
  else if c = 'b' then some (Char.ofNat 8)
  else if c = 'f' then some (Char.ofNat 12)
  else if c = 'n' then some (Char.ofNat 10)
  else if c = 'r' then some (Char.ofNat 13)
  else if c = 't' then some (Char.ofNat 9)
  else Option.none

/-- Body of a JSON string after the opening quote: ordinary characters
(unescaped control characters below 0x20 are rejected, as json.loads
does in its default strict mode), backslash escapes, and four-hex-digit
unicode escapes.  Returns the decoded characters and the input after
the closing quote. -/
def parseJStringAux : List Char → Option (List Char × List Char)
  | [] => Option.none
  | c :: rest =>
    if c = Char.ofNat 34 then some ([], rest)
    else if c = '\\' then
      match rest with
      | 'u' :: h1 :: h2 :: h3 :: h4 :: rest2 =>
        match hexVal h1, hexVal h2, hexVal h3, hexVal h4 with
        | some a, some b, some c3, some d =>
          (parseJStringAux rest2).map (fun r =>
            (Char.ofNat (((a * 16 + b) * 16 + c3) * 16 + d) :: r.1, r.2))
        | _, _, _, _ => Option.none
      | e :: rest2 =>
        match jsonEscChar e with
        | some ce => (parseJStringAux rest2).map (fun r => (ce :: r.1, r.2))
        | Option.none => Option.none
      | [] => Option.none
    else if c.toNat < 32 then Option.none
    else (parseJStringAux rest).map (fun r => (c :: r.1, r.2))

/-- Longest leading run of decimal digits and the remaining input. -/
def takeDigits : List Char → List Char × List Char
  | [] => ([], [])
  | c :: rest =>
    if c.isDigit then
      match takeDigits rest with
      | (ds, r) => (c :: ds, r)
    else ([], c :: rest)

/-- Numeric value of a digit run. -/
def digitsNat (cs : List Char) : Nat :=
  cs.foldl (fun acc c => acc * 10 + (c.toNat - 48)) 0

/-- A JSON number at the head of the input, per the JSON grammar used
by json.loads: optional minus (never plus), an integer part that is 0
or starts with a nonzero digit, an optional fraction, an optional
exponent.  A fraction or exponent makes the value a float.  A longer
digit run after a leading zero is left unconsumed, exactly as the
scanner leaves it, making the enclosing parse fail on the stray
digits. -/
def parseJNumber (cs : List Char) : Option (PyJson × List Char) :=
  match (match cs with
         | '-' :: rest => (true, rest)
         | rest => (false, rest)) with
  | (neg, cs1) =>
    match takeDigits cs1 with
    | ([], _) => Option.none
    | (ip, cs2) =>
      if 2 ≤ ip.length ∧ ip.head? = some '0' then Option.none
      else
        match (match cs2 with
               | '.' :: rest =>
                 match takeDigits rest with
                 | ([], _) => (([] : List Char), cs2)
                 | (fd, r2) => (fd, r2)
               | _ => (([] : List Char), cs2)) with
        | (fracDigits, cs3) =>
          match (match cs3 with
                 | c :: rest =>
                   if c = 'e' ∨ c = 'E' then
                     match (match rest with
                            | '+' :: rest2 => (false, rest2)
                            | '-' :: rest2 => (true, rest2)
                            | rest2 => (false, rest2)) with
                     | (eneg, rest2) =>
                       match takeDigits rest2 with
                       | ([], _) => (Option.none, cs3)
                       | (ed, r3) => (some (eneg, ed), r3)
                   else (Option.none, cs3)
                 | [] => (Option.none, cs3)) with
          | (expPart, cs4) =>
            match expPart, fracDigits with
            | Option.none, [] =>
              some (PyJson.jint ((if neg then -1 else 1) * (digitsNat ip : Int)), cs4)
            | _, _ =>
              some (PyJson.jfloat
                ((if neg then -1 else 1) * (digitsNat (ip ++ fracDigits) : Int))
                ((match expPart with
                  | some (eneg, ed) =>
                    (if eneg then -(digitsNat ed : Int) else (digitsNat ed : Int))
                  | Option.none => 0) - (fracDigits.length : Int)), cs4)

/-- Parser mode: a value, the elements of an array (first marks the
position right after the opening bracket, where a close is allowed),
or the members of an object. -/
inductive JMode where
  | value
  | elems (first : Bool) (acc : List PyJson)
  | members (first : Bool)

/-- The recursive scanner of json.loads.  The first argument is a step
counter bounded by a multiple of the input length (every recursive call
either consumes a character or moves to a mode that does on its next
step, so it cannot run out; exhaustion is reported like a depth
failure).  The second argument is the container nesting allowance
modeling the CPython recursion limit: entering a list or object below
an exhausted allowance raises RecursionError, modeled as uncaughtDepth;
the exact CPython cutoff depends on the interpreter stack and is fixed
here at jsonMaxDepth. -/
def parseJRun : Nat → Nat → JMode → List Char → Except (Option Unit) (PyJson × List Char)
  | 0, _, _, _ => Except.error (some ())
  | Nat.succ fuel, depth, JMode.value, cs =>
    match cs with
    | [] => Except.error Option.none
    | c :: rest =>
      if c = Char.ofNat 34 then
        match parseJStringAux rest with
        | some (s, rest2) => Except.ok (PyJson.jstr s, rest2)
        | Option.none => Except.error Option.none
      else if c = Char.ofNat 91 then
        if depth = 0 then Except.error (some ())
        else parseJRun fuel (depth - 1) (JMode.elems true []) (skipWs rest)
      else if c = Char.ofNat 123 then
        if depth = 0 then Except.error (some ())
        else parseJRun fuel (depth - 1) (JMode.members true) (skipWs rest)
      else if c = 't' then
        match cs with
        | 't' :: 'r' :: 'u' :: 'e' :: rest2 => Except.ok (PyJson.jbool true, rest2)
        | _ => Except.error Option.none
      else if c = 'f' then
        match cs with
        | 'f' :: 'a' :: 'l' :: 's' :: 'e' :: rest2 => Except.ok (PyJson.jbool false, rest2)
        | _ => Except.error Option.none
      else if c = 'n' then
        match cs with
        | 'n' :: 'u' :: 'l' :: 'l' :: rest2 => Except.ok (PyJson.jnull, rest2)
        | _ => Except.error Option.none
      else if c = 'N' then
        match cs with
        | 'N' :: 'a' :: 'N' :: rest2 => Except.ok (PyJson.jnan, rest2)
        | _ => Except.error Option.none
      else if c = 'I' then
        match cs with
        | 'I' :: 'n' :: 'f' :: 'i' :: 'n' :: 'i' :: 't' :: 'y' :: rest2 =>
          Except.ok (PyJson.jinf false, rest2)
        | _ => Except.error Option.none
      else
        match parseJNumber cs with
        | some (v, rest2) => Except.ok (v, rest2)
        | Option.none =>
          match cs with
          | '-' :: 'I' :: 'n' :: 'f' :: 'i' :: 'n' :: 'i' :: 't' :: 'y' :: rest2 =>
            Except.ok (PyJson.jinf true, rest2)
          | _ => Except.error Option.none
  | Nat.succ fuel, depth, JMode.elems first acc, cs =>
    match cs with
    | [] => Except.error Option.none
    | c :: rest =>
      if first ∧ c = Char.ofNat 93 then Except.ok (PyJson.jlist acc, rest)
      else
        match parseJRun fuel depth JMode.value cs with
        | Except.ok (v, rest2) =>
          match skipWs rest2 with
          | c2 :: rest3 =>
            if c2 = Char.ofNat 93 then Except.ok (PyJson.jlist (acc ++ [v]), rest3)
            else if c2 = ',' then
              parseJRun fuel depth (JMode.elems false (acc ++ [v])) (skipWs rest3)
            else Except.error Option.none
          | [] => Except.error Option.none
        | Except.error e => Except.error e
  | Nat.succ fuel, depth, JMode.members first, cs =>
    match cs with
    | [] => Except.error Option.none
    | c :: rest =>
      if first ∧ c = Char.ofNat 125 then Except.ok (PyJson.jobj, rest)
      else if c = Char.ofNat 34 then
        match parseJStringAux rest with
        | Option.none => Except.error Option.none
        | some (_, rest2) =>
          match skipWs rest2 with
          | ':' :: rest3 =>
            match parseJRun fuel depth JMode.value (skipWs rest3) with
            | Except.ok (_, rest4) =>
              match skipWs rest4 with
              | c2 :: rest5 =>
                if c2 = Char.ofNat 125 then Except.ok (PyJson.jobj, rest5)
                else if c2 = ',' then
                  parseJRun fuel depth (JMode.members false) (skipWs rest5)
                else Except.error Option.none
              | [] => Except.error Option.none
            | Except.error e => Except.error e
          | _ => Except.error Option.none
      else Except.error Option.none

/-- Container nesting allowance standing in for the CPython recursion
limit (default 1000). -/
def jsonMaxDepth : Nat := 1000

/-- Model of Python json.loads (standard library, not part of this
repository): parse one JSON value, then require only whitespace to
remain (anything else is the Extra data decode error). -/
def jsonLoadsChars (cs : List Char) : JsonOutcome :=
  match parseJRun (4 * cs.length + 16) jsonMaxDepth JMode.value (skipWs cs) with
  | Except.ok (v, rest) =>
    if (skipWs rest).isEmpty then JsonOutcome.value v else JsonOutcome.decodeError
  | Except.error Option.none => JsonOutcome.decodeError
  | Except.error (some _) => JsonOutcome.uncaughtDepth

/-- Truncation toward zero of the decimal value mantissa times ten to
the exponent: int() applied to a float. -/
def pyTruncScaled (m e : Int) : Int :=
  if 0 ≤ e then m * ((10 ^ e.toNat : Nat) : Int)
  else
    if 0 ≤ m then ((m.toNat / 10 ^ (-e).toNat : Nat) : Int)
    else -(((-m).toNat / 10 ^ (-e).toNat : Nat) : Int)

/-- Python int() applied to one decoded JSON element: identity on ints,
True and False give 1 and 0, floats truncate toward zero (literals
whose value reaches two to the 1024 are floats that overflowed to
infinity, an OverflowError; the half-unit rounding band just below is
approximated by this cutoff), strings are parsed as int literals after
stripping, and everything else raises an uncaught conversion error
(TypeError for None, lists and dicts, ValueError for NaN and bad
strings), which propagates out of normalize_predecessors uncaught. -/
def pyIntOfJson : PyJson → Except String Int
  | PyJson.jint n => Except.ok n
  | PyJson.jbool b => Except.ok (if b then 1 else 0)
  | PyJson.jfloat m e =>
    if 2 ^ 1024 * 10 ^ (-e).toNat ≤ m.natAbs * 10 ^ e.toNat then
      Except.error "cannot convert float infinity to integer"
    else Except.ok (pyTruncScaled m e)
  | PyJson.jstr s =>
    match parseIntChars (pyStripChars s) with
    | some n => Except.ok n
    | Option.none =>
      Except.error ("invalid literal for int with base 10: " ++ String.mk s)
  | PyJson.jnan => Except.error "cannot convert float NaN to integer"
  | PyJson.jinf _ => Except.error "cannot convert float infinity to integer"
  | PyJson.jnull => Except.error "int argument must not be None"
  | PyJson.jlist _ => Except.error "int argument must not be a list"
  | PyJson.jobj => Except.error "int argument must not be a dict"

/-- The list comprehension int(v) for v in parsed: the first failing
conversion propagates. -/
def pyIntList : List PyJson → Except String (List Int)
  | [] => Except.ok []
  | v :: vs =>
    match pyIntOfJson v with
    | Except.ok n => (pyIntList vs).map (fun l => n :: l)
    | Except.error e => Except.error e

/-- The raw predecessors cell of one record: Python None, a string, or
a list of integers. -/
inductive PredValue where
  | pnone
  | pstr (s : String)
  | pints (l : List Int)
  deriving Repr, DecidableEq

/-- int() applied to each comma piece in order; the error names the
first piece that fails to parse. -/
def parsePieces : List (List Char) → Except String (List Int)
  | [] => Except.ok []
  | p :: ps =>
    match parseIntChars p with
    | some n => (parsePieces ps).map (fun l => n :: l)
    | Option.none => Except.error ("invalid literal for int with base 10: " ++ String.mk p)

/-- normalize_predecessors from _standardize_risk_frame.  None and the
empty (stripped) string give the empty list; a string decoding as a
JSON list gives int() of each element (a failing conversion propagates
uncaught); a string decoding as any other JSON value raises Invalid
predecessors value; only a string on which json.loads raises
JSONDecodeError is split on commas, each piece stripped, empties
dropped, and parsed by int(); an already-iterable value gives its
integers; a RecursionError from json.loads propagates uncaught. -/
def normalizePredecessors : PredValue → Except String (List Int)
  | PredValue.pnone => Except.ok []
  | PredValue.pints l => Except.ok l
  | PredValue.pstr s =>
    if (pyStripChars s.data).isEmpty then Except.ok []
    else
      match jsonLoadsChars (pyStripChars s.data) with
      | JsonOutcome.value (PyJson.jlist l) => pyIntList l
      | JsonOutcome.value _ => Except.error ("Invalid predecessors value: " ++ s)
      | JsonOutcome.uncaughtDepth =>
        Except.error "maximum recursion depth exceeded"
      | JsonOutcome.decodeError =>
        parsePieces (((splitChars ',' (pyStripChars s.data)).map pyStripChars).filter
          (fun p => !p.isEmpty))

/-- One record before standardization.  The numeric fields are already
typed (the rename and astype steps of _standardize_risk_frame are
identities in this typed model); predecessors is the raw cell. -/
structure RawRisk where
  id : Int
  score : ℚ
  resScore : ℚ
  cta : ℚ
  leadTime : Int
  capacity : Int
  predecessors : PredValue
  deriving Repr, DecidableEq

/-- _standardize_risk_frame: normalize the predecessors cell of every
record, propagating the first failure. -/
def standardizeRiskFrame (rs : List RawRisk) : Except String (List RiskTask) :=
  rs.mapM (fun r =>
    (normalizePredecessors r.predecessors).map (fun ps =>
      { id := r.id, score := r.score, resScore := r.resScore, cta := r.cta,
        leadTime := r.leadTime, capacity := r.capacity, predecessors := ps }))

/-! ## Sample data (BASE_SAMPLE_DATA, get_sample_data) -/

/-- BASE_SAMPLE_DATA: the fixed 15-task demonstration dataset. -/
def baseSampleData : List RawRisk :=
  [ { id := 1, score := 25, resScore := 5, cta := 5000, leadTime := 3, capacity := 2,
      predecessors := PredValue.pints [] },
    { id := 2, score := 20, resScore := 4, cta := 3000, leadTime := 2, capacity := 1,
      predecessors := PredValue.pints [1] },
    { id := 3, score := 30, resScore := 10, cta := 8000, leadTime := 4, capacity := 2,
      predecessors := PredValue.pints [] },
    { id := 4, score := 15, resScore := 2, cta := 2000, leadTime := 2, capacity := 1,
      predecessors := PredValue.pints [2] },
    { id := 5, score := 40, resScore := 5, cta := 10000, leadTime := 5, capacity := 3,
      predecessors := PredValue.pints [3] },
    { id := 6, score := 10, resScore := 2, cta := 1500, leadTime := 2, capacity := 1,
      predecessors := PredValue.pints [] },
    { id := 7, score := 50, resScore := 10, cta := 12000, leadTime := 6, capacity := 3,
      predecessors := PredValue.pints [5] },
    { id := 8, score := 12, resScore := 6, cta := 1000, leadTime := 1, capacity := 1,
      predecessors := PredValue.pints [6] },
    { id := 9, score := 35, resScore := 8, cta := 7500, leadTime := 4, capacity := 2,
      predecessors := PredValue.pints [] },
    { id := 10, score := 18, resScore := 3, cta := 2500, leadTime := 3, capacity := 1,
      predecessors := PredValue.pints [9] },
    { id := 11, score := 22, resScore := 5, cta := 4000, leadTime := 3, capacity := 2,
      predecessors := PredValue.pints [8] },
    { id := 12, score := 28, resScore := 7, cta := 6000, leadTime := 4, capacity := 2,
      predecessors := PredValue.pints [4] },
    { id := 13, score := 14, resScore := 2, cta := 1800, leadTime := 2, capacity := 1,
      predecessors := PredValue.pints [] },
    { id := 14, score := 45, resScore := 9, cta := 11000, leadTime := 5, capacity := 3,
      predecessors := PredValue.pints [13] },
    { id := 15, score := 16, resScore := 4, cta := 2200, leadTime := 2, capacity := 1,
      predecessors := PredValue.pints [14] } ]

/-- get_sample_data: raises for num_records <= 0, otherwise returns the
slice BASE_SAMPLE_DATA[:num_records]. -/
def getSampleData (numRecords : Int) : Except String (List RawRisk) :=
  if numRecords ≤ 0 then Except.error "num_records must be greater than 0."
  else Except.ok (baseSampleData.take numRecords.toNat)

/-! ## Dataset validation (validate_risk_data) -/

/-- The per-row predecessor checks of validate_risk_data, in source
order: existence in the id set first, then self-reference. -/
def checkRowPreds (allIds : List Int) (rid : Int) : List Int → Except String Unit
  | [] => Except.ok ()
  | p :: ps =>
    if p ∉ allIds then
      Except.error ("Risk " ++ toString rid ++ " references missing predecessor ID "
        ++ toString p ++ ".")
    else if p = rid then
      Except.error ("Risk " ++ toString rid ++ " cannot depend on itself.")
    else checkRowPreds allIds rid ps

/-- The row loop of the predecessor checks. -/
def checkPreds (allIds : List Int) : List RiskTask → Except String Unit
  | [] => Except.ok ()
  | r :: rs =>
    match checkRowPreds allIds r.id r.predecessors with
    | Except.ok _ => checkPreds allIds rs
    | Except.error e => Except.error e

/-- graph = dict of id to predecessor list built by
_ensure_acyclic_dependency_graph (ids are unique when it runs). -/
def graphOf (ds : List RiskTask) : List (Int × List Int) :=
  ds.map (fun r => (r.id, r.predecessors))

/-- The keys of the graph dict. -/
def keysOf (g : List (Int × List Int)) : List Int := g.map (fun p => p.1)

/-- graph.get(node, []). -/
def predsOf (g : List (Int × List Int)) (n : Int) : List Int :=
  match g.find? (fun p => p.1 == n) with
  | some p => p.2
  | Option.none => []

/-- The predecessors the dfs recurses into: those that are keys of the
graph (the `if pred in graph` guard). -/
def inGraphPreds (g : List (Int × List Int)) (n : Int) : List Int :=
  (predsOf g n).filter (fun p => (keysOf g).contains p)

/-- One step of the sequential pred loop: run the recursive dfs when
no cycle or fuel failure has occurred yet, otherwise keep the failure. -/
def dfsStep (next : List Int → Int → Option (Option (List Int)))
    (acc : Option (Option (List Int))) (p : Int) : Option (Option (List Int)) :=
  match acc with
  | some (some vis) => next vis p
  | other => other

/-- The dfs of _ensure_acyclic_dependency_graph with explicit fuel.
Result: Option.none for fuel exhaustion (shown unreachable below for
fuel greater than the graph size), some Option.none when a node in the
visiting set is re-entered (a cycle), some (some visited) on success
with the updated visited set (a list in reverse finish order). -/
def dfsVisit (g : List (Int × List Int)) :
    Nat → List Int → List Int → Int → Option (Option (List Int))
  | 0, _, _, _ => Option.none
  | Nat.succ fuel, visiting, visited, node =>
    if node ∈ visited then some (some visited)
    else if node ∈ visiting then some Option.none
    else
      match (inGraphPreds g node).foldl
        (fun acc p => dfsStep (fun vis q => dfsVisit g fuel (node :: visiting) vis q) acc p)
        (some (some visited)) with
      | some (some visited2) => some (some (node :: visited2))
      | other => other

/-- The top-level loop: for node in graph: dfs(node), threading the
shared visited set. -/
def dfsAll (g : List (Int × List Int)) (fuel : Nat) :
    List Int → List Int → Option (Option (List Int))
  | visited, [] => some (some visited)
  | visited, n :: ns =>
    match dfsVisit g fuel [] visited n with
    | some (some v2) => dfsAll g fuel v2 ns
    | other => other

/-- _ensure_acyclic_dependency_graph.  The fuel bound length + 1 is
provably sufficient, so the fuel-exhaustion branch (folded into the
error case here) never fires. -/
def ensureAcyclicDependencyGraph (ds : List RiskTask) : Except String Unit :=
  let g := graphOf ds
  match dfsAll g (g.length + 1) [] (keysOf g) with
  | some (some _) => Except.ok ()
  | _ => Except.error "Dependency graph contains a cycle."

/-- validate_risk_data: the checks in source order. -/
def validateRiskData (ds : List RiskTask) : Except String Unit :=
  if ds.isEmpty then Except.error "Risk dataset is empty."
  else if ¬ (ds.map (fun r => r.id)).Nodup then
    Except.error "Duplicate risk IDs found."
  else if ds.any (fun r => decide (r.leadTime ≤ 0)) then
    Except.error "LeadTime must be greater than 0 for all risks."
  else if ds.any (fun r => decide (r.capacity ≤ 0)) then
    Except.error "Capacity must be greater than 0 for all risks."
  else if ds.any (fun r => decide (r.cta < 0)) then
    Except.error "CTA must be non-negative for all risks."
  else if ds.any (fun r => decide (r.score < 0)) || ds.any (fun r => decide (r.resScore < 0)) then
    Except.error "Risk scores must be non-negative."
  else if ds.any (fun r => decide (r.score < r.resScore)) then
    Except.error "Res_Score cannot exceed Score."
  else
    match checkPreds (ds.map (fun r => r.id)) ds with
    | Except.error e => Except.error e
    | Except.ok _ => ensureAcyclicDependencyGraph ds

/-- prepare_risk_data: sample data when no records are supplied (only
then does num_records matter), then standardization and validation. -/
def prepareRiskData (risks : Option (List RawRisk)) (numRecords : Int) :
    Except String (List RiskTask) :=
  let build : List RawRisk → Except String (List RiskTask) := fun raw =>
    match standardizeRiskFrame raw with
    | Except.error e => Except.error e
    | Except.ok ds =>
      match validateRiskData ds with
      | Except.error e => Except.error e
      | Except.ok _ => Except.ok ds
  match risks with
  | Option.none =>
    match getSampleData numRecords with
    | Except.error e => Except.error e
    | Except.ok raw => build raw
  | some raw => build raw

/-! ## Schedule rows, aggregation and analyze_risk_plan -/

/-- One row of the schedule DataFrame returned by either solver. -/
structure ScheduleRow where
  id : Int
  startDay : Int
  endDay : Int
  cost : ℚ
  reduction : ℚ
  capacity : Int
  deriving Repr, DecidableEq

/-- The AnalysisSummary dataclass. -/
structure AnalysisSummary where
  solver : String
  feasible : Bool
  deadline : Int
  teamCapacity : Int
  numRisks : Nat
  selectedCount : Nat
  totalOriginalScore : ℚ
  targetScoreMax : ℚ
  achievedScore : Option ℚ
  achievedReduction : Option ℚ
  achievedReductionPct : Option ℚ
  totalCost : Option ℚ
  schedule : List ScheduleRow
  budgetTimeline : List (Int × ℚ)
  deriving Repr, DecidableEq

/-- Sort key of schedule_df.sort_values with columns Start_Day, ID. -/
def rowLe (x y : ScheduleRow) : Bool :=
  decide (x.startDay < y.startDay ∨ (x.startDay = y.startDay ∧ x.id ≤ y.id))

/-- Insertion step of the stable sort on schedule rows. -/
def insertRow (x : ScheduleRow) : List ScheduleRow → List ScheduleRow
  | [] => [x]
  | y :: ys => if rowLe x y then x :: y :: ys else y :: insertRow x ys

/-- Stable sort of schedule rows by (Start_Day, ID). -/
def sortSchedule (rows : List ScheduleRow) : List ScheduleRow :=
  rows.foldr insertRow []

/-- Insertion step for sorting days ascending. -/
def insertIntSorted (x : Int) : List Int → List Int
  | [] => [x]
  | y :: ys => if x ≤ y then x :: y :: ys else y :: insertIntSorted x ys

/-- The distinct start days of a schedule, ascending. -/
def sortedDays (rows : List ScheduleRow) : List Int :=
  ((rows.map (fun r => r.startDay)).dedup).foldr insertIntSorted []

/-- budget_timeline: group the schedule by Start_Day, sum Cost, sort by
day; empty for an empty schedule. -/
def budgetTimelineOf (rows : List ScheduleRow) : List (Int × ℚ) :=
  (sortedDays rows).map (fun d =>
    (d, ((rows.filter (fun r => r.startDay == d)).map (fun r => r.cost)).sum))

/-- target_max: the explicit ceiling when given, otherwise
total_original * target_remaining_ratio. -/
def targetOf (df : List RiskTask) (targetRemainingRatio : ℚ)
    (targetScoreMax : Option ℚ) : ℚ :=
  match targetScoreMax with
  | some t => t
  | Option.none => totalScore df * targetRemainingRatio

/-- analyze_risk_plan.  The two external solver calls are abstracted as
function parameters (solve_with_cp_sat and solve_with_pulp hand their
models to third-party search engines); everything else follows the
source: parameter checks, data preparation, target computation,
dispatch on the solver name, the infeasible summary, and the feasible
aggregation. -/
def analyzeRiskPlan
    (cpFn pulpFn : List RiskTask → Int → Int → ℚ → Option (List ScheduleRow))
    (risks : Option (List RawRisk)) (numRecords : Int) (solver : String)
    (deadline teamCapacity : Int) (targetRemainingRatio : ℚ)
    (targetScoreMax : Option ℚ) : Except String AnalysisSummary :=
  if deadline ≤ 0 then Except.error "deadline must be greater than 0."
  else if teamCapacity ≤ 0 then Except.error "team_capacity must be greater than 0."
  else if targetScoreMax.isNone ∧ ¬ (0 ≤ targetRemainingRatio ∧ targetRemainingRatio ≤ 1) then
    Except.error "target_remaining_ratio must be between 0 and 1."
  else
    match prepareRiskData risks numRecords with
    | Except.error e => Except.error e
    | Except.ok df =>
      let totalOriginal := totalScore df
      let targetMax := targetOf df targetRemainingRatio targetScoreMax
      let scheduleOpt : Except String (Option (List ScheduleRow)) :=
        if solver = "cp-sat" then Except.ok (cpFn df deadline teamCapacity targetMax)
        else if solver = "pulp" then Except.ok (pulpFn df deadline teamCapacity targetMax)
        else Except.error ("Unsupported solver: " ++ solver)
      match scheduleOpt with
      | Except.error e => Except.error e
      | Except.ok Option.none =>
        Except.ok
          { solver := solver
            feasible := false
            deadline := deadline
            teamCapacity := teamCapacity
            numRisks := df.length
            selectedCount := 0
            totalOriginalScore := totalOriginal
            targetScoreMax := targetMax
            achievedScore := Option.none
            achievedReduction := Option.none
            achievedReductionPct := Option.none
            totalCost := Option.none
            schedule := []
            budgetTimeline := [] }
      | Except.ok (some rows) =>
        let sorted := sortSchedule rows
        let budget := budgetTimelineOf sorted
        let totalReduction := (sorted.map (fun r => r.reduction)).sum
        let achieved := totalOriginal - totalReduction
        let pct := if totalOriginal ≠ 0 then totalReduction / totalOriginal * 100 else 0
        let cost := (sorted.map (fun r => r.cost)).sum
        Except.ok
          { solver := solver
            feasible := true
            deadline := deadline
            teamCapacity := teamCapacity
            numRisks := df.length
            selectedCount := sorted.length
            totalOriginalScore := totalOriginal
            targetScoreMax := targetMax
            achievedScore := some achieved
            achievedReduction := some totalReduction
            achievedReductionPct := some pct
            totalCost := some cost
            schedule := sorted
            budgetTimeline := budget }

/-! ## Spec-side predicates -/

/-- Edge of the dependency graph as the dfs walks it: from a node to an
in-graph predecessor. -/
def GEdge (g : List (Int × List Int)) (x y : Int) : Prop :=
  x ∈ keysOf g ∧ y ∈ predsOf g x ∧ y ∈ keysOf g

/-- Spec reading: the predecessor graph contains a cycle (a nonempty
edge path from some task id back to itself). -/
def HasCycleSpec (ds : List RiskTask) : Prop :=
  ∃ x, Relation.TransGen (fun u v => ∃ r ∈ ds, r.id = u ∧ v ∈ r.predecessors) x x

/-- The acceptance conditions of the spec for the validator: unique
ids, positive durations and demands, non-negative cost and scores,
residual bounded by score, existing predecessors, no self-predecessor,
and an acyclic predecessor graph. -/
def SpecAccepts (ds : List RiskTask) : Prop :=
  (ds.map (fun r => r.id)).Nodup ∧
  (∀ r ∈ ds, 0 < r.leadTime) ∧
  (∀ r ∈ ds, 0 < r.capacity) ∧
  (∀ r ∈ ds, 0 ≤ r.cta) ∧
  (∀ r ∈ ds, 0 ≤ r.score ∧ 0 ≤ r.resScore) ∧
  (∀ r ∈ ds, r.resScore ≤ r.score) ∧
  (∀ r ∈ ds, ∀ p ∈ r.predecessors, p ∈ ds.map (fun q => q.id)) ∧
  (∀ r ∈ ds, r.id ∉ r.predecessors) ∧
  ¬ HasCycleSpec ds

/-- Datasets whose scores, residual scores and costs are all
integer-valued rationals (no fractional part for the rounding in
solve_with_cp_sat to discard). -/
def IntegerValued (ds : List RiskTask) : Prop :=
  ∀ r ∈ ds, (∃ a : Int, r.score = (a : ℚ)) ∧ (∃ b : Int, r.resScore = (b : ℚ)) ∧
    (∃ c : Int, r.cta = (c : ℚ))

/-- Reverse finish order as the dfs builds it: each entry of the list
has all of its in-graph predecessors among the later entries. -/
def TopoOrdered (g : List (Int × List Int)) : List Int → Prop
  | [] => True
  | a :: rest => (∀ b ∈ inGraphPreds g a, b ∈ rest) ∧ TopoOrdered g rest

/-- The visiting stack is a chain of graph edges ending at the given
node: each entry is a key having the next entry (finally the node) as
an in-graph predecessor. -/
def VisChain (g : List (Int × List Int)) : List Int → Int → Prop
  | [], _ => True
  | h :: t, node => node ∈ inGraphPreds g h ∧ h ∈ keysOf g ∧ VisChain g t h

/-! ## Helper lemmas -/

theorem pyRound_intCast (z : Int) : pyRound (z : ℚ) = z := by
  unfold pyRound
  norm_num

theorem pyRound_nonneg {q : ℚ} (h : 0 ≤ q) : 0 ≤ pyRound q := by
  have hf : (0 : Int) ≤ Int.floor q := by
    simpa using Int.floor_le_floor h
  unfold pyRound
  split_ifs <;> omega

theorem sum_ind_eq (s : Finset Int) (f : Int → Bool) :
    (∑ t ∈ s, ind (f t)) = ((s.filter (fun t => f t = true)).card : Int) := by
  unfold ind
  rw [Finset.card_filter]
  push_cast
  rfl

theorem extractStart_eq_of_unique (a : PulpAssign) (D i t0 : Int) (h0 : 0 ≤ t0)
    (hD : t0 ≤ D) (ht : a.startAt i t0 = true)
    (huniq : ∀ u, a.startAt i u = true → u = t0) :
    extractStart a D i = t0 := by
  unfold extractStart
  have hmem : t0 ∈ (List.range (D.toNat + 1)).map (Int.ofNat : Nat → Int) := by
    refine List.mem_map.mpr ⟨t0.toNat, List.mem_range.mpr (by omega), ?_⟩
    simpa using Int.toNat_of_nonneg h0
  have hsome : (((List.range (D.toNat + 1)).map (Int.ofNat : Nat → Int)).find?
      (fun t => a.startAt i t)).isSome := by
    rw [List.find?_isSome]
    exact ⟨t0, hmem, ht⟩
  obtain ⟨u, hu⟩ := Option.isSome_iff_exists.mp hsome
  rw [hu]
  exact huniq u (List.find?_some hu)

theorem extractStart_eq_zero (a : PulpAssign) (D i : Int)
    (hnone : ∀ t, a.startAt i t = false) :
    extractStart a D i = 0 := by
  unfold extractStart
  have : (((List.range (D.toNat + 1)).map (Int.ofNat : Nat → Int)).find?
      (fun t => a.startAt i t)) = Option.none := by
    rw [List.find?_eq_none]
    intro x _
    simp [hnone x]
  rw [this]

/-- From a PuLP-feasible assignment, a selected task has a unique start
day, within [0, deadline - duration]. -/
theorem pulp_start_unique {ds : List RiskTask} {D C : Int} {T : ℚ} {a : PulpAssign}
    (hP : PulpFeasible ds D C T a) {r : RiskTask} (hr : r ∈ ds)
    (hsel : a.sel r.id = true) :
    ∃ t0, a.startAt r.id t0 = true ∧ 0 ≤ t0 ∧ t0 ≤ D ∧ t0 + r.leadTime ≤ D ∧
      (∀ u, a.startAt r.id u = true → u = t0) ∧ extractStart a D r.id = t0 := by
  obtain ⟨hdom, hcount, hforb, _, _, _⟩ := hP
  have hc := hcount r hr
  rw [hsel, sum_ind_eq] at hc
  have hcard : ((Finset.Icc 0 D).filter (fun t => a.startAt r.id t = true)).card = 1 := by
    have : ((((Finset.Icc 0 D).filter (fun t => a.startAt r.id t = true)).card : Int)) = 1 := by
      simpa [ind] using hc
    exact_mod_cast this
  obtain ⟨t0, hft⟩ := Finset.card_eq_one.mp hcard
  have ht0 : t0 ∈ Finset.Icc (0 : Int) D ∧ a.startAt r.id t0 = true := by
    have : t0 ∈ (Finset.Icc 0 D).filter (fun t => a.startAt r.id t = true) := by
      rw [hft]; exact Finset.mem_singleton_self t0
    simpa using Finset.mem_filter.mp this
  obtain ⟨hmem, hstart⟩ := ht0
  rw [Finset.mem_Icc] at hmem
  have huniq : ∀ u, a.startAt r.id u = true → u = t0 := by
    intro u hu
    have humem : u ∈ Finset.Icc (0 : Int) D := by
      rw [Finset.mem_Icc]; exact hdom r hr u hu
    have : u ∈ (Finset.Icc 0 D).filter (fun t => a.startAt r.id t = true) :=
      Finset.mem_filter.mpr ⟨humem, hu⟩
    rw [hft] at this
    exact Finset.mem_singleton.mp this
  have hfit : t0 + r.leadTime ≤ D := by
    by_contra hcon
    have hforb0 := hforb r hr t0 (by omega) (by omega)
    rw [hstart] at hforb0
    exact Bool.true_eq_false.mp hforb0
  exact ⟨t0, hstart, hmem.1, hmem.2, hfit,
    huniq, extractStart_eq_of_unique a D r.id t0 hmem.1 hmem.2 hstart huniq⟩

/-- From a PuLP-feasible assignment, an unselected task has no start
variable set. -/
theorem pulp_unselected {ds : List RiskTask} {D C : Int} {T : ℚ} {a : PulpAssign}
    (hP : PulpFeasible ds D C T a) {r : RiskTask} (hr : r ∈ ds)
    (hsel : a.sel r.id = false) :
    ∀ t, a.startAt r.id t = false := by
  obtain ⟨hdom, hcount, _, _, _, _⟩ := hP
  have hc := hcount r hr
  rw [hsel, sum_ind_eq] at hc
  have hcard : ((Finset.Icc 0 D).filter (fun t => a.startAt r.id t = true)).card = 0 := by
    have : ((((Finset.Icc 0 D).filter (fun t => a.startAt r.id t = true)).card : Int)) = 0 := by
      simpa [ind] using hc
    exact_mod_cast this
  have hempty := Finset.card_eq_zero.mp hcard
  intro t
  by_contra hcon
  have hts : a.startAt r.id t = true := by
    cases h : a.startAt r.id t with
    | false => exact absurd h hcon
    | true => rfl
  have htmem : t ∈ Finset.Icc (0 : Int) D := by
    rw [Finset.mem_Icc]; exact hdom r hr t hts
  have : t ∈ (Finset.Icc 0 D).filter (fun u => a.startAt r.id u = true) :=
    Finset.mem_filter.mpr ⟨htmem, hts⟩
  rw [hempty] at this
  exact absurd this (Finset.not_mem_empty t)

/-- The symbolic start sum(t * x[i][t]) of a selected task equals its
actual start day. -/
theorem pulpStartSym_sel {ds : List RiskTask} {D C : Int} {T : ℚ} {a : PulpAssign}
    (hP : PulpFeasible ds D C T a) {r : RiskTask} (hr : r ∈ ds)
    (hsel : a.sel r.id = true) :
    pulpStartSym a D r.id = extractStart a D r.id := by
  obtain ⟨t0, hstart, h0, hD, _, huniq, hext⟩ := pulp_start_unique hP hr hsel
  rw [hext]
  unfold pulpStartSym
  rw [Finset.sum_eq_single t0]
  · rw [hstart]; simp [ind]
  · intro u _ hne
    have : a.startAt r.id u = false := by
      cases h : a.startAt r.id u with
      | false => rfl
      | true => exact absurd (huniq u h) hne
    rw [this]; simp [ind]
  · intro hnot
    exact absurd (Finset.mem_Icc.mpr ⟨h0, hD⟩) hnot

/-- The symbolic start of an unselected task is 0. -/
theorem pulpStartSym_unsel {ds : List RiskTask} {D C : Int} {T : ℚ} {a : PulpAssign}
    (hP : PulpFeasible ds D C T a) {r : RiskTask} (hr : r ∈ ds)
    (hsel : a.sel r.id = false) :
    pulpStartSym a D r.id = 0 := by
  unfold pulpStartSym
  refine Finset.sum_eq_zero (fun t _ => ?_)
  rw [pulp_unselected hP hr hsel t]
  simp [ind]

/-- A CP-SAT-feasible assignment places every selected task within
[0, deadline - duration]. -/
theorem cp_selected_fits {ds : List RiskTask} {D C : Int} {T : ℚ} {a : CpAssign}
    (h : CpFeasible ds D C T a) {r : RiskTask} (hr : r ∈ ds)
    (hsel : a.sel r.id = true) :
    0 ≤ a.start r.id ∧ a.start r.id + r.leadTime ≤ D := by
  obtain ⟨hb, _, _, _⟩ := h
  obtain ⟨h1, h2, h3, h4, h5⟩ := hb r hr
  have := h5 hsel
  omega

/-! ## Concrete inputs used by witnesses -/

/-- A one-record valid raw dataset. -/
def demoRaw : List RawRisk :=
  [ { id := 1, score := 10, resScore := 2, cta := 100, leadTime := 2, capacity := 1,
      predecessors := PredValue.pints [] } ]

/-- demoRaw after standardization. -/
def demoTask : RiskTask :=
  { id := 1, score := 10, resScore := 2, cta := 100, leadTime := 2, capacity := 1,
    predecessors := [] }

/-! ## Claims C9, C10, C6, C7 -/

/-- C9: get_sample_data raises exactly for num_records at most 0;
otherwise it returns the first num_records entries of the fixed 15-task
sample set, hence min(num_records, 15) records, a request beyond 15
being silently capped at 15. -/
theorem getSampleData_spec (n : Int) :
    (n ≤ 0 → getSampleData n = Except.error "num_records must be greater than 0.") ∧
    (0 < n → getSampleData n = Except.ok (baseSampleData.take n.toNat) ∧
      (baseSampleData.take n.toNat).length = min n.toNat 15) := by
  constructor
  · intro h
    simp [getSampleData, h]
  · intro h
    have hn : ¬ (n ≤ 0) := by omega
    refine ⟨by simp [getSampleData, hn], ?_⟩
    have hlen : baseSampleData.length = 15 := by rfl
    simp [List.length_take, hlen]

/-- C9 witness: requesting 20 records returns all 15. -/
theorem getSampleData_spec_witness :
    ((0 : Int) < 20) ∧ getSampleData 20 = Except.ok (baseSampleData.take (20 : Int).toNat) ∧
      (baseSampleData.take (20 : Int).toNat).length = min (20 : Int).toNat 15 :=
  ⟨by norm_num, (getSampleData_spec 20).2 (by norm_num)⟩

/-- C10: when an explicit record list is supplied, num_records is
ignored by prepare_risk_data and analyze_risk_plan (the only consumers
that accept records; benchmark_solvers accepts no record list), and in
particular a non-positive num_records raises no error: the
num_records check of get_sample_data runs only on the sample path. -/
theorem numRecords_ignored_with_explicit_risks :
    (∀ (rs : List RawRisk) (n m : Int),
       prepareRiskData (some rs) n = prepareRiskData (some rs) m) ∧
    (∀ (cpFn pulpFn : List RiskTask → Int → Int → ℚ → Option (List ScheduleRow))
       (rs : List RawRisk) (n m deadline teamCapacity : Int) (solver : String)
       (ratio : ℚ) (tmax : Option ℚ),
       analyzeRiskPlan cpFn pulpFn (some rs) n solver deadline teamCapacity ratio tmax =
         analyzeRiskPlan cpFn pulpFn (some rs) m solver deadline teamCapacity ratio tmax) ∧
    prepareRiskData (some demoRaw) (-5) = Except.ok [demoTask] :=
  ⟨fun _ _ _ => rfl, fun _ _ _ _ _ _ _ _ _ _ => rfl, rfl⟩

/-- C6 counterexample: the string consisting of the single digit 5
parses as a non-list JSON value, so normalize_predecessors raises
Invalid predecessors value instead of producing the one-element set the
claim promises. -/
theorem normalizePredecessors_digit_string_raises :
    normalizePredecessors (PredValue.pstr "5") =
      Except.error "Invalid predecessors value: 5" ∧
    normalizePredecessors (PredValue.pstr "5") ≠ Except.ok [5] := by
  refine ⟨rfl, fun h => ?_⟩
  rw [show normalizePredecessors (PredValue.pstr "5") =
      Except.error "Invalid predecessors value: 5" from rfl] at h
  exact Except.noConfusion h

/-- jsonLoadsChars reports a decode failure on the empty string. -/
theorem jsonLoadsChars_nil : jsonLoadsChars [] = JsonOutcome.decodeError := rfl

set_option maxRecDepth 40000 in
/-- C6 amended: absent and blank values give the empty set; a string
decoding as a JSON list gives int() of each element (so float elements
truncate: [1.5] gives the singleton 1); a string decoding as any other
JSON value (for example the plain digit string 5, a JSON number)
raises Invalid predecessors value naming the value; only a string on
which json.loads fails (such as 05 or +5, which are not JSON numbers)
is comma-split, stripped, and parsed by int(), a failing piece raising
an error naming that piece. -/
theorem normalizePredecessors_spec :
    (normalizePredecessors PredValue.pnone = Except.ok []) ∧
    (∀ l : List Int, normalizePredecessors (PredValue.pints l) = Except.ok l) ∧
    (∀ s : String, pyStripChars s.data = [] →
       normalizePredecessors (PredValue.pstr s) = Except.ok []) ∧
    (∀ (s : String) (l : List PyJson),
       jsonLoadsChars (pyStripChars s.data) = JsonOutcome.value (PyJson.jlist l) →
       normalizePredecessors (PredValue.pstr s) = pyIntList l) ∧
    (∀ (s : String) (j : PyJson),
       jsonLoadsChars (pyStripChars s.data) = JsonOutcome.value j →
       (∀ l, j ≠ PyJson.jlist l) →
       normalizePredecessors (PredValue.pstr s) =
         Except.error ("Invalid predecessors value: " ++ s)) ∧
    (∀ s : String, pyStripChars s.data ≠ [] →
       jsonLoadsChars (pyStripChars s.data) = JsonOutcome.decodeError →
       normalizePredecessors (PredValue.pstr s) =
         parsePieces (((splitChars ',' (pyStripChars s.data)).map pyStripChars).filter
           (fun p => !p.isEmpty))) ∧
    (∀ (p : List Char) (ps : List (List Char)), parseIntChars p = Option.none →
       parsePieces (p :: ps) =
         Except.error ("invalid literal for int with base 10: " ++ String.mk p)) ∧
    (normalizePredecessors (PredValue.pstr "1,2") = Except.ok [1, 2]) ∧
    (normalizePredecessors (PredValue.pstr "05") = Except.ok [5]) ∧
    (normalizePredecessors (PredValue.pstr "+5") = Except.ok [5]) ∧
    (normalizePredecessors (PredValue.pstr "[+1]") =
       Except.error "invalid literal for int with base 10: [+1]") ∧
    (normalizePredecessors (PredValue.pstr "[01]") =
       Except.error "invalid literal for int with base 10: [01]") ∧
    (normalizePredecessors (PredValue.pstr "[1.5]") = Except.ok [1]) ∧
    (normalizePredecessors (PredValue.pstr "[5.0, 6.0]") = Except.ok [5, 6]) := by
  have hnotempty : ∀ s : String, pyStripChars s.data ≠ [] →
      ¬ ((pyStripChars s.data).isEmpty = true) := by
    intro s hne hcon
    exact hne (List.isEmpty_iff.mp hcon)
  refine ⟨rfl, fun l => rfl, ?_, ?_, ?_, ?_, ?_, rfl, rfl, rfl, rfl, rfl, rfl, rfl⟩
  · intro s hs
    simp only [normalizePredecessors]
    rw [if_pos (by rw [hs]; rfl)]
  · intro s l hj
    have hne : pyStripChars s.data ≠ [] := by
      intro h
      rw [h, jsonLoadsChars_nil] at hj
      exact JsonOutcome.noConfusion hj
    simp only [normalizePredecessors]
    rw [if_neg (hnotempty s hne), hj]
  · intro s j hj hnl
    have hne : pyStripChars s.data ≠ [] := by
      intro h
      rw [h, jsonLoadsChars_nil] at hj
      exact JsonOutcome.noConfusion hj
    simp only [normalizePredecessors]
    rw [if_neg (hnotempty s hne), hj]
    cases j with
    | jnull => rfl
    | jbool b => rfl
    | jint n => rfl
    | jfloat m e => rfl
    | jinf neg => rfl
    | jnan => rfl
    | jstr s2 => rfl
    | jlist l => exact absurd rfl (hnl l)
    | jobj => rfl
  · intro s hne hj
    simp only [normalizePredecessors]
    rw [if_neg (hnotempty s hne), hj]
  · intro p ps hp
    unfold parsePieces
    rw [hp]

/-- C6 amended witness: the JSON list string [5] decodes to a
one-element list whose int() conversion yields the singleton 5. -/
theorem normalizePredecessors_spec_witness :
    jsonLoadsChars (pyStripChars ("[5]").data) =
      JsonOutcome.value (PyJson.jlist [PyJson.jint 5]) ∧
    normalizePredecessors (PredValue.pstr "[5]") = Except.ok [5] := by
  refine ⟨rfl, ?_⟩
  exact (normalizePredecessors_spec.2.2.2.1 "[5]" [PyJson.jint 5] rfl).trans rfl

/-- C7: when the selected solving strategy reports infeasible, the
analysis returns normally with feasible false, the optional metrics
null, selected_count 0, and empty schedule and budget-timeline
collections. -/
theorem analyze_infeasible_shape
    (cpFn pulpFn : List RiskTask → Int → Int → ℚ → Option (List ScheduleRow))
    (risks : Option (List RawRisk)) (numRecords deadline teamCapacity : Int)
    (ratio : ℚ) (tmax : Option ℚ) (df : List RiskTask)
    (hD : 0 < deadline) (hC : 0 < teamCapacity)
    (hr : tmax.isNone = true → 0 ≤ ratio ∧ ratio ≤ 1)
    (hprep : prepareRiskData risks numRecords = Except.ok df) :
    (cpFn df deadline teamCapacity (targetOf df ratio tmax) = Option.none →
      ∃ s, analyzeRiskPlan cpFn pulpFn risks numRecords "cp-sat"
          deadline teamCapacity ratio tmax = Except.ok s ∧
        s.feasible = false ∧ s.achievedScore = Option.none ∧
        s.achievedReduction = Option.none ∧ s.achievedReductionPct = Option.none ∧
        s.totalCost = Option.none ∧ s.selectedCount = 0 ∧
        s.schedule = [] ∧ s.budgetTimeline = []) ∧
    (pulpFn df deadline teamCapacity (targetOf df ratio tmax) = Option.none →
      ∃ s, analyzeRiskPlan cpFn pulpFn risks numRecords "pulp"
          deadline teamCapacity ratio tmax = Except.ok s ∧
        s.feasible = false ∧ s.achievedScore = Option.none ∧
        s.achievedReduction = Option.none ∧ s.achievedReductionPct = Option.none ∧
        s.totalCost = Option.none ∧ s.selectedCount = 0 ∧
        s.schedule = [] ∧ s.budgetTimeline = []) := by
  have h1 : ¬ (deadline ≤ 0) := by omega
  have h2 : ¬ (teamCapacity ≤ 0) := by omega
  have h3 : ¬ (tmax.isNone = true ∧ ¬ (0 ≤ ratio ∧ ratio ≤ 1)) := by
    rintro ⟨hn, hw⟩
    exact hw (hr hn)
  constructor
  · intro hsolve
    have heq : analyzeRiskPlan cpFn pulpFn risks numRecords "cp-sat"
        deadline teamCapacity ratio tmax =
        Except.ok (⟨"cp-sat", false, deadline, teamCapacity, df.length, 0,
          totalScore df, targetOf df ratio tmax, Option.none, Option.none,
          Option.none, Option.none, [], []⟩ : AnalysisSummary) := by
      simp only [analyzeRiskPlan, if_neg h1, if_neg h2, if_neg h3, hprep, hsolve]
      rfl
    exact ⟨_, heq, rfl, rfl, rfl, rfl, rfl, rfl, rfl, rfl⟩
  · intro hsolve
    have heq : analyzeRiskPlan cpFn pulpFn risks numRecords "pulp"
        deadline teamCapacity ratio tmax =
        Except.ok (⟨"pulp", false, deadline, teamCapacity, df.length, 0,
          totalScore df, targetOf df ratio tmax, Option.none, Option.none,
          Option.none, Option.none, [], []⟩ : AnalysisSummary) := by
      simp only [analyzeRiskPlan, if_neg h1, if_neg h2, if_neg h3, hprep, hsolve]
      rfl
    exact ⟨_, heq, rfl, rfl, rfl, rfl, rfl, rfl, rfl, rfl⟩

/-- C7 witness: a solver function that always reports infeasible on the
demo dataset. -/
theorem analyze_infeasible_shape_witness :
    (0 : Int) < 20 ∧ (0 : Int) < 4 ∧
    prepareRiskData (some demoRaw) 15 = Except.ok [demoTask] ∧
    (∃ s, analyzeRiskPlan (fun _ _ _ _ => Option.none) (fun _ _ _ _ => Option.none)
        (some demoRaw) 15 "cp-sat" 20 4 (1/2) Option.none = Except.ok s ∧
      s.feasible = false ∧ s.achievedScore = Option.none ∧
      s.achievedReduction = Option.none ∧ s.achievedReductionPct = Option.none ∧
      s.totalCost = Option.none ∧ s.selectedCount = 0 ∧
      s.schedule = [] ∧ s.budgetTimeline = []) :=
  ⟨by norm_num, by norm_num, rfl,
    (analyze_infeasible_shape (fun _ _ _ _ => Option.none) (fun _ _ _ _ => Option.none)
      (some demoRaw) 15 20 4 (1/2) Option.none [demoTask]
      (by norm_num) (by norm_num) (fun _ => by norm_num) rfl).1 rfl⟩

/-- pyRound of an integer-valued rational. -/
theorem pyRound_eq_of_int (q : ℚ) (z : Int) (h : q = (z : ℚ)) : pyRound q = z := by
  rw [h, pyRound_intCast]

/-- scoreReductionNeeded when the gap is a non-negative integer. -/
theorem scoreReductionNeeded_eq (ds : List RiskTask) (T : ℚ) (z : Int)
    (h : totalScore ds - T = (z : ℚ)) (hz : 0 ≤ z) :
    scoreReductionNeeded ds T = z := by
  unfold scoreReductionNeeded
  rw [h, Int.ceil_intCast]
  omega

/-! ## Claim C4: deadline fit -/

/-- Single-task dataset parameterized by duration. -/
def c4Task (lead : Int) : RiskTask :=
  { id := 1, score := 10, resScore := 0, cta := 5, leadTime := lead, capacity := 1,
    predecessors := [] }

/-- C4 counterexample: a task with duration = deadline + 1 (deadline 2,
duration 3) whose reduction is required is infeasible under both
models: the code enforces start + duration at most deadline, not
deadline + 1. -/
theorem duration_deadline_plus_one_infeasible :
    ¬ CpSatFeasibleInstance [c4Task 3] 2 1 0 ∧
    ¬ PulpFeasibleInstance [c4Task 3] 2 1 0 := by
  have hneed : scoreReductionNeeded [c4Task 3] 0 = 10 :=
    scoreReductionNeeded_eq _ _ _ (by norm_num [totalScore, c4Task]) (by norm_num)
  constructor
  · rintro ⟨a, hb, hred, _, _⟩
    have hsel : a.sel 1 = true := by
      by_contra hcon
      have hfalse : a.sel 1 = false := by
        cases h : a.sel 1 with
        | true => exact absurd h hcon
        | false => rfl
      have hzero : selReduction [c4Task 3] a.sel = 0 := by
        simp [selReduction, c4Task, hfalse, ind]
      rw [hneed, hzero] at hred
      omega
    obtain ⟨h1, h2, h3, h4, h5⟩ := hb (c4Task 3) (by simp)
    have hlink := h5 hsel
    have hlead : (c4Task 3).leadTime = 3 := rfl
    have hid : (c4Task 3).id = 1 := rfl
    rw [hid] at h1 h2 h3 h4 hlink
    omega
  · rintro ⟨a, hP⟩
    cases hsel : a.sel 1 with
    | false =>
      have hcon : (10 : ℚ) - 0 ≤ 0 := by
        have hs := hP.2.2.2.1
        rwa [show selFloatReduction [c4Task 3] a.sel = 0 from by
            simp [selFloatReduction, c4Task, hsel],
          show totalScore [c4Task 3] = (10 : ℚ) from by simp [totalScore, c4Task]] at hs
      norm_num at hcon
    | true =>
      obtain ⟨t0, hstart, h0, hD2, hfit, _, _⟩ :=
        pulp_start_unique hP (r := c4Task 3) (by simp) hsel
      have hlead : (c4Task 3).leadTime = 3 := rfl
      rw [hlead] at hfit
      omega

/-- The feasible placement for the amended single-task scenario with
duration equal to the deadline. -/
def c4CpWit : CpAssign :=
  { sel := fun _ => true, start := fun _ => 0, endDay := fun _ => 2 }

/-- The PuLP counterpart of c4CpWit. -/
def c4PulpWit : PulpAssign :=
  { sel := fun _ => true, startAt := fun i t => i == 1 && t == 0 }

/-- C4 amended: a selected task satisfies start + duration at most
deadline under both models (one unit stricter than the claim); a
single-task dataset with duration equal to the deadline is feasible
under both models, necessarily with the task selected and starting at
day 0, while duration = deadline + 1 is infeasible (see the
counterexample). -/
theorem deadline_fit_spec :
    (∀ (ds : List RiskTask) (D C : Int) (T : ℚ) (a : CpAssign),
       CpFeasible ds D C T a → ∀ r ∈ ds, a.sel r.id = true →
         a.start r.id + r.leadTime ≤ D) ∧
    (∀ (ds : List RiskTask) (D C : Int) (T : ℚ) (a : PulpAssign),
       PulpFeasible ds D C T a → ∀ r ∈ ds, a.sel r.id = true →
         extractStart a D r.id + r.leadTime ≤ D) ∧
    (CpFeasible [c4Task 2] 2 1 0 c4CpWit ∧ c4CpWit.sel 1 = true ∧ c4CpWit.start 1 = 0) ∧
    (PulpFeasible [c4Task 2] 2 1 0 c4PulpWit ∧ c4PulpWit.sel 1 = true ∧
      extractStart c4PulpWit 2 1 = 0) ∧
    (∀ a : CpAssign, CpFeasible [c4Task 2] 2 1 0 a → a.sel 1 = true ∧ a.start 1 = 0) ∧
    (∀ a : PulpAssign, PulpFeasible [c4Task 2] 2 1 0 a → a.sel 1 = true ∧
      extractStart a 2 1 = 0) := by
  have hneed : scoreReductionNeeded [c4Task 2] 0 = 10 :=
    scoreReductionNeeded_eq _ _ _ (by norm_num [totalScore, c4Task]) (by norm_num)
  have hpy : pyRound ((10 : ℚ) - 0) = 10 := pyRound_eq_of_int _ 10 (by norm_num)
  refine ⟨?_, ?_, ?_, ?_, ?_, ?_⟩
  · intro ds D C T a h r hr hsel
    exact (cp_selected_fits h hr hsel).2
  · intro ds D C T a h r hr hsel
    obtain ⟨t0, _, _, _, hfit, _, hext⟩ := pulp_start_unique h hr hsel
    rw [hext]
    exact hfit
  · refine ⟨⟨?_, ?_, ?_, ?_⟩, rfl, rfl⟩
    · intro r hr
      have : r = c4Task 2 := by simpa using hr
      subst this
      refine ⟨by norm_num [c4CpWit], by norm_num [c4CpWit], by norm_num [c4CpWit],
        by norm_num [c4CpWit], fun _ => by norm_num [c4CpWit, c4Task]⟩
    · rw [hneed,
        show selReduction [c4Task 2] c4CpWit.sel
            = ind (c4CpWit.sel 1) * pyRound ((10 : ℚ) - 0) from by
          simp [selReduction, c4Task],
        show c4CpWit.sel 1 = true from rfl, hpy]
      norm_num [ind]
    · intro r hr p hp
      have : r = c4Task 2 := by simpa using hr
      subst this
      simp [c4Task] at hp
    · intro t
      simp only [cpDemandAt, c4CpWit, c4Task, List.map_cons, List.map_nil,
        List.sum_cons, List.sum_nil]
      split_ifs <;> omega
  · refine ⟨⟨?_, ?_, ?_, ?_, ?_, ?_⟩, rfl, by decide⟩
    · intro r hr t ht
      have : r = c4Task 2 := by simpa using hr
      subst this
      simp [c4PulpWit, c4Task] at ht
      omega
    · intro r hr
      have : r = c4Task 2 := by simpa using hr
      subst this
      decide
    · intro r hr t h1 h2
      have : r = c4Task 2 := by simpa using hr
      subst this
      simp [c4Task] at h1
      simp [c4PulpWit]
      omega
    · show totalScore [c4Task 2] - selFloatReduction [c4Task 2] c4PulpWit.sel ≤ 0
      rw [show selFloatReduction [c4Task 2] c4PulpWit.sel = (10 : ℚ) - 0 from by
          simp [selFloatReduction, c4Task, c4PulpWit],
        show totalScore [c4Task 2] = (10 : ℚ) from by simp [totalScore, c4Task]]
      norm_num
    · intro r hr p hp
      have : r = c4Task 2 := by simpa using hr
      subst this
      simp [c4Task] at hp
    · intro t ht
      revert ht
      revert t
      decide
  · intro a h
    obtain ⟨hb, hred, _, _⟩ := h
    have hsel : a.sel 1 = true := by
      by_contra hcon
      have hfalse : a.sel 1 = false := by
        cases hx : a.sel 1 with
        | true => exact absurd hx hcon
        | false => rfl
      have hzero : selReduction [c4Task 2] a.sel = 0 := by
        simp [selReduction, c4Task, hfalse, ind]
      rw [hneed, hzero] at hred
      omega
    refine ⟨hsel, ?_⟩
    obtain ⟨h1, h2, h3, h4, h5⟩ := hb (c4Task 2) (by simp)
    have hlink := h5 hsel
    have hid : (c4Task 2).id = 1 := rfl
    have hlead : (c4Task 2).leadTime = 2 := rfl
    rw [hid] at h1 h2 h3 h4 hlink
    rw [hlead] at hlink
    omega
  · intro a hP
    have hsel : a.sel 1 = true := by
      cases hx : a.sel 1 with
      | true => rfl
      | false =>
        have hcon : (10 : ℚ) - 0 ≤ 0 := by
          have hs := hP.2.2.2.1
          rwa [show selFloatReduction [c4Task 2] a.sel = 0 from by
              simp [selFloatReduction, c4Task, hx],
            show totalScore [c4Task 2] = (10 : ℚ) from by simp [totalScore, c4Task]] at hs
        norm_num at hcon
    refine ⟨hsel, ?_⟩
    obtain ⟨t0, _, h0, _, hfit, _, hext⟩ :=
      pulp_start_unique hP (r := c4Task 2) (by simp) hsel
    have hlead : (c4Task 2).leadTime = 2 := rfl
    have hid : (c4Task 2).id = 1 := rfl
    rw [hlead] at hfit
    rw [hid] at hext
    rw [hext]
    omega

/-- C4 amended witness: the explicit placement for duration = deadline
is feasible and pinned to start day 0. -/
theorem deadline_fit_spec_witness :
    CpFeasible [c4Task 2] 2 1 0 c4CpWit ∧ c4CpWit.start 1 + (c4Task 2).leadTime ≤ 2 :=
  ⟨deadline_fit_spec.2.2.1.1,
    deadline_fit_spec.1 [c4Task 2] 2 1 0 c4CpWit deadline_fit_spec.2.2.1.1
      (c4Task 2) (by simp) deadline_fit_spec.2.2.1.2.1⟩

/-! ## Claim C8: relaxation monotonicity -/

/-- scoreReductionNeeded is 0 when the target is above the total. -/
theorem scoreReductionNeeded_nonpos (ds : List RiskTask) (T : ℚ) (z : Int)
    (h : totalScore ds - T = (z : ℚ)) (hz : z ≤ 0) : scoreReductionNeeded ds T = 0 := by
  unfold scoreReductionNeeded
  rw [h, Int.ceil_intCast]
  omega

/-- C8: increasing the deadline or the capacity preserves feasibility
of both embedded models: the same assignment remains feasible in the
relaxed model.  The predecessor ids are required to exist in the
dataset, which validation guarantees. -/
theorem relaxation_monotone (ds : List RiskTask) (D D2 C C2 : Int) (T : ℚ)
    (hDD : D ≤ D2) (hCC : C ≤ C2) (hC0 : 0 ≤ C)
    (hpreds : ∀ r ∈ ds, ∀ p ∈ r.predecessors, ∃ q ∈ ds, q.id = p) :
    (CpSatFeasibleInstance ds D C T → CpSatFeasibleInstance ds D2 C2 T) ∧
    (PulpFeasibleInstance ds D C T → PulpFeasibleInstance ds D2 C2 T) := by
  constructor
  · rintro ⟨a, hb, hred, hprec, hcum⟩
    refine ⟨a, ?_, hred, hprec, fun t => le_trans (hcum t) hCC⟩
    intro r hr
    obtain ⟨h1, h2, h3, h4, h5⟩ := hb r hr
    exact ⟨h1, by omega, h3, by omega, h5⟩
  · rintro ⟨a, hP⟩
    obtain ⟨hdom, hcount, hforb, hscore, hprec, hres⟩ := hP
    have hzero : ∀ r ∈ ds, ∀ t ∈ Finset.Icc (0 : Int) D2, t ∉ Finset.Icc (0 : Int) D →
        a.startAt r.id t = false := by
      intro r hr t ht hnot
      cases hx : a.startAt r.id t with
      | false => rfl
      | true =>
        have hb := hdom r hr t hx
        exact absurd (Finset.mem_Icc.mpr ⟨hb.1, hb.2⟩) hnot
    have hsub : Finset.Icc (0 : Int) D ⊆ Finset.Icc 0 D2 :=
      Finset.Icc_subset_Icc le_rfl hDD
    have hcount2 : ∀ r ∈ ds,
        (∑ t ∈ Finset.Icc 0 D2, ind (a.startAt r.id t)) = ind (a.sel r.id) := by
      intro r hr
      rw [← Finset.sum_subset hsub (fun t ht hnot => by rw [hzero r hr t ht hnot]; rfl)]
      exact hcount r hr
    have hsym2 : ∀ r ∈ ds, pulpStartSym a D2 r.id = pulpStartSym a D r.id := by
      intro r hr
      unfold pulpStartSym
      rw [← Finset.sum_subset hsub
        (fun t ht hnot => by rw [hzero r hr t ht hnot]; simp [ind])]
    refine ⟨a, ?_, hcount2, ?_, hscore, ?_, ?_⟩
    · intro r hr t hx
      have hb := hdom r hr t hx
      exact ⟨hb.1, by omega⟩
    · intro r hr t h1 h2
      by_cases hcase : t ≤ D
      · exact hforb r hr t (by omega) hcase
      · cases hx : a.startAt r.id t with
        | false => rfl
        | true => exact absurd (hdom r hr t hx).2 (by omega)
    · intro r hr p hp
      obtain ⟨q, hq, hqid⟩ := hpreds r hr p hp
      obtain ⟨hsel_le, hbigm⟩ := hprec r hr p hp
      refine ⟨hsel_le, ?_⟩
      have hpsym : pulpStartSym a D2 p = pulpStartSym a D p := by
        rw [← hqid]
        exact hsym2 q hq
      rw [hsym2 r hr, hpsym]
      cases hx : a.sel r.id with
      | true =>
        rw [hx] at hbigm
        simp [ind] at hbigm ⊢
        omega
      | false =>
        rw [hx] at hbigm
        simp [ind] at hbigm ⊢
        omega
    · intro t ht
      rw [Finset.mem_Icc] at ht
      by_cases hcase : t ≤ D
      · exact le_trans (hres t (Finset.mem_Icc.mpr ⟨ht.1, hcase⟩)) hCC
      · have husage : pulpUsage ds a t = 0 := by
          unfold pulpUsage
          apply List.sum_eq_zero
          intro x hx
          obtain ⟨r, hr, rfl⟩ := List.mem_map.mp hx
          have hwin : (∑ k ∈ Finset.Icc (max 0 (t - r.leadTime + 1)) t,
              ind (a.startAt r.id k)) = 0 := by
            apply Finset.sum_eq_zero
            intro k hk
            rw [Finset.mem_Icc] at hk
            cases hx2 : a.startAt r.id k with
            | false => rfl
            | true =>
              have hdomk := hdom r hr k hx2
              have hge : t - r.leadTime + 1 ≤ k := le_trans (le_max_right _ _) hk.1
              have hforbk := hforb r hr k (by omega) hdomk.2
              rw [hx2] at hforbk
              exact Bool.noConfusion hforbk
          rw [hwin, mul_zero]
        rw [husage]
        omega

/-- The all-unselected CP-SAT assignment. -/
def emptyCpAssign : CpAssign :=
  { sel := fun _ => false, start := fun _ => 0, endDay := fun _ => 0 }

/-- The all-unselected PuLP assignment. -/
def emptyPulpAssign : PulpAssign :=
  { sel := fun _ => false, startAt := fun _ _ => false }

/-- With a target above the total score, the empty selection satisfies
the CP-SAT model of the demo dataset. -/
theorem demo_cp_feasible (D C : Int) (hD : 0 ≤ D) (hC : 0 ≤ C) :
    CpFeasible [demoTask] D C 100 emptyCpAssign := by
  refine ⟨?_, ?_, ?_, ?_⟩
  · intro r hr
    have : r = demoTask := by simpa using hr
    subst this
    exact ⟨le_refl _, by simpa [emptyCpAssign] using hD, le_refl _,
      by simpa [emptyCpAssign] using hD,
      fun h => Bool.noConfusion h⟩
  · rw [scoreReductionNeeded_nonpos [demoTask] 100 (-90)
      (by norm_num [totalScore, demoTask]) (by norm_num)]
    have : selReduction [demoTask] emptyCpAssign.sel = 0 := by
      simp [selReduction, emptyCpAssign, ind]
    omega
  · intro r hr p hp
    have : r = demoTask := by simpa using hr
    subst this
    simp [demoTask] at hp
  · intro t
    have : cpDemandAt [demoTask] emptyCpAssign t = 0 := by
      simp [cpDemandAt, emptyCpAssign]
    omega

/-- With a target above the total score, the empty selection satisfies
the PuLP model of the demo dataset. -/
theorem demo_pulp_feasible (D C : Int) (_hD : 0 ≤ D) (hC : 0 ≤ C) :
    PulpFeasible [demoTask] D C 100 emptyPulpAssign := by
  refine ⟨?_, ?_, ?_, ?_, ?_, ?_⟩
  · intro r hr t hx
    exact Bool.noConfusion hx
  · intro r hr
    simp [emptyPulpAssign, ind]
  · intro r hr t h1 h2
    rfl
  · rw [show selFloatReduction [demoTask] emptyPulpAssign.sel = 0 from by
      simp [selFloatReduction, emptyPulpAssign],
      show totalScore [demoTask] = (10 : ℚ) from by simp [totalScore, demoTask]]
    norm_num
  · intro r hr p hp
    have : r = demoTask := by simpa using hr
    subst this
    simp [demoTask] at hp
  · intro t ht
    have h0 : pulpUsage [demoTask] emptyPulpAssign t = 0 := by
      simp [pulpUsage, emptyPulpAssign, ind]
    omega

/-- C8 witness: relaxing deadline 1 and capacity 1 of the feasible demo
instance to 2 and 2 keeps both models feasible. -/
theorem relaxation_monotone_witness :
    (1 : Int) ≤ 2 ∧ (1 : Int) ≤ 2 ∧ (0 : Int) ≤ 1 ∧
    CpSatFeasibleInstance [demoTask] 2 2 100 ∧
    PulpFeasibleInstance [demoTask] 2 2 100 := by
  have hpreds : ∀ r ∈ [demoTask], ∀ p ∈ r.predecessors, ∃ q ∈ [demoTask], q.id = p := by
    intro r hr p hp
    have : r = demoTask := by simpa using hr
    subst this
    simp [demoTask] at hp
  refine ⟨by norm_num, by norm_num, by norm_num, ?_, ?_⟩
  · exact (relaxation_monotone [demoTask] 1 2 1 2 100 (by norm_num) (by norm_num)
      (by norm_num) hpreds).1 ⟨emptyCpAssign, demo_cp_feasible 1 1 (by norm_num) (by norm_num)⟩
  · exact (relaxation_monotone [demoTask] 1 2 1 2 100 (by norm_num) (by norm_num)
      (by norm_num) hpreds).2 ⟨emptyPulpAssign, demo_pulp_feasible 1 1 (by norm_num) (by norm_num)⟩

/-! ## Claim C3: achieved score against the target ceiling -/

/-- pyRound rounds up when the fractional part exceeds one half. -/
theorem pyRound_up (q : ℚ) (z : Int) (h1 : Int.floor q = z) (h2 : 1/2 < q - (z : ℚ)) :
    pyRound q = z + 1 := by
  unfold pyRound
  rw [h1, if_neg (by linarith), if_pos h2]

/-- On an integer-valued dataset the rounded reduction sum equals the
exact reduction sum. -/
theorem cast_selReduction : ∀ (ds : List RiskTask) (sel : Int → Bool), IntegerValued ds →
    ((selReduction ds sel : Int) : ℚ) = selFloatReduction ds sel := by
  intro ds sel
  induction ds with
  | nil => intro h; simp [selReduction, selFloatReduction]
  | cons r rs ih =>
    intro h
    obtain ⟨⟨za, hza⟩, ⟨zb, hzb⟩, _⟩ := h r (List.mem_cons_self r rs)
    have hrs : IntegerValued rs := fun q hq => h q (List.mem_cons_of_mem r hq)
    simp only [selReduction, selFloatReduction, List.map_cons, List.sum_cons] at ih ⊢
    rw [Int.cast_add, ih hrs]
    congr 1
    push_cast
    rw [hza, hzb]
    have hpz : pyRound ((za : ℚ) - (zb : ℚ)) = za - zb :=
      pyRound_eq_of_int _ _ (by push_cast; ring)
    rw [hpz]
    cases hx : sel r.id <;> simp [ind]

/-- With integer-valued scores, a CP-SAT-feasible selection meets the
exact target ceiling. -/
theorem cp_score_le_target (ds : List RiskTask) (D C : Int) (T : ℚ) (a : CpAssign)
    (hint : IntegerValued ds) (h : CpFeasible ds D C T a) :
    totalScore ds - selFloatReduction ds a.sel ≤ T := by
  obtain ⟨_, hred, _, _⟩ := h
  have hcast := cast_selReduction ds a.sel hint
  have h1 : ((scoreReductionNeeded ds T : Int) : ℚ) ≤ ((selReduction ds a.sel : Int) : ℚ) := by
    exact_mod_cast hred
  have h2 : totalScore ds - T ≤ ((scoreReductionNeeded ds T : Int) : ℚ) := by
    unfold scoreReductionNeeded
    have hle : totalScore ds - T ≤ ((Int.ceil (totalScore ds - T) : Int) : ℚ) :=
      Int.le_ceil _
    have hmax : (Int.ceil (totalScore ds - T) : Int) ≤
        max 0 (Int.ceil (totalScore ds - T)) := le_max_right _ _
    calc totalScore ds - T ≤ ((Int.ceil (totalScore ds - T) : Int) : ℚ) := hle
      _ ≤ ((max 0 (Int.ceil (totalScore ds - T)) : Int) : ℚ) := by exact_mod_cast hmax
  rw [hcast] at h1
  linarith

/-- C3 amended: for the PuLP model the achieved score is at most the
target ceiling exactly; for the CP-SAT model the same holds whenever
scores and residual scores are integer-valued (the rounding in the
model is then lossless). -/
theorem achieved_score_meets_target_spec :
    (∀ (ds : List RiskTask) (D C : Int) (T : ℚ) (a : PulpAssign),
       PulpFeasible ds D C T a →
       totalScore ds - selFloatReduction ds a.sel ≤ T) ∧
    (∀ (ds : List RiskTask) (D C : Int) (T : ℚ) (a : CpAssign),
       IntegerValued ds → CpFeasible ds D C T a →
       totalScore ds - selFloatReduction ds a.sel ≤ T) := by
  constructor
  · intro ds D C T a hP
    exact hP.2.2.2.1
  · intro ds D C T a hint h
    exact cp_score_le_target ds D C T a hint h

/-- C3 amended witness: the feasible demo PuLP instance respects its
ceiling. -/
theorem achieved_score_meets_target_spec_witness :
    PulpFeasible [demoTask] 1 1 100 emptyPulpAssign ∧
    totalScore [demoTask] - selFloatReduction [demoTask] emptyPulpAssign.sel ≤ 100 :=
  ⟨demo_pulp_feasible 1 1 (by norm_num) (by norm_num),
    achieved_score_meets_target_spec.1 [demoTask] 1 1 100 emptyPulpAssign
      (demo_pulp_feasible 1 1 (by norm_num) (by norm_num))⟩

/-- Single task with a fractional residual score. -/
def c3Task : RiskTask :=
  { id := 1, score := 10, resScore := 12/5, cta := 5, leadTime := 1, capacity := 1,
    predecessors := [] }

/-- The placement selecting the single c3 task at day 0. -/
def c3Wit : CpAssign :=
  { sel := fun _ => true, start := fun _ => 0, endDay := fun _ => 1 }

/-- C3 counterexample: with score 10, residual 2.4 and target ceiling
2, the CP-SAT model is feasible (rounded reduction 8 meets the required
8) but every feasible outcome reports achieved score 2.4, exceeding the
ceiling by 0.4, far beyond a 1e-6 tolerance. -/
theorem achieved_score_exceeds_target :
    CpFeasible [c3Task] 5 1 2 c3Wit ∧
    (∀ a : CpAssign, CpFeasible [c3Task] 5 1 2 a →
       totalScore [c3Task] - selFloatReduction [c3Task] a.sel = 12/5 ∧
       ¬ (totalScore [c3Task] - selFloatReduction [c3Task] a.sel ≤ 2 + 1/1000000)) := by
  have hneed : scoreReductionNeeded [c3Task] 2 = 8 :=
    scoreReductionNeeded_eq _ _ _ (by norm_num [totalScore, c3Task]) (by norm_num)
  have hfl : Int.floor ((10 : ℚ) - 12/5) = 7 := by
    rw [Int.floor_eq_iff]
    norm_num
  have hpy : pyRound ((10 : ℚ) - 12/5) = 8 := by
    have := pyRound_up ((10 : ℚ) - 12/5) 7 hfl (by norm_num)
    simpa using this
  have hselred : ∀ sel : Int → Bool, selReduction [c3Task] sel = ind (sel 1) * 8 := by
    intro sel
    simp only [selReduction, c3Task, List.map_cons, List.map_nil, List.sum_cons,
      List.sum_nil]
    rw [show ((10 : ℚ) - 12/5) = ((10 : ℚ) - 12/5) from rfl]
    rw [hpy]
    ring
  constructor
  · refine ⟨?_, ?_, ?_, ?_⟩
    · intro r hr
      have : r = c3Task := by simpa using hr
      subst this
      exact ⟨by norm_num [c3Wit], by norm_num [c3Wit], by norm_num [c3Wit],
        by norm_num [c3Wit], fun _ => rfl⟩
    · rw [hneed, hselred]
      norm_num [c3Wit, ind]
    · intro r hr p hp
      have : r = c3Task := by simpa using hr
      subst this
      simp [c3Task] at hp
    · intro t
      simp only [cpDemandAt, c3Wit, c3Task, List.map_cons, List.map_nil,
        List.sum_cons, List.sum_nil]
      split_ifs <;> omega
  · intro a h
    obtain ⟨_, hred, _, _⟩ := h
    rw [hneed, hselred] at hred
    have hsel : a.sel 1 = true := by
      cases hx : a.sel 1 with
      | true => rfl
      | false => rw [hx] at hred; simp [ind] at hred
    have hval : totalScore [c3Task] - selFloatReduction [c3Task] a.sel = 12/5 := by
      rw [show selFloatReduction [c3Task] a.sel = (10 : ℚ) - 12/5 from by
          simp [selFloatReduction, c3Task, hsel],
        show totalScore [c3Task] = (10 : ℚ) from by simp [totalScore, c3Task]]
      norm_num
    refine ⟨hval, ?_⟩
    rw [hval]
    norm_num

/-! ## Claim C1: the two-task worked example -/

/-- Task1 of the worked example. -/
def exTask1 : RiskTask :=
  { id := 1, score := 20, resScore := 5, cta := 100, leadTime := 2, capacity := 1,
    predecessors := [] }

/-- Task2 of the worked example. -/
def exTask2 : RiskTask :=
  { id := 2, score := 15, resScore := 5, cta := 80, leadTime := 1, capacity := 1,
    predecessors := [1] }

/-- The worked-example dataset. -/
def exData : List RiskTask := [exTask1, exTask2]

/-- The worked-example target ceiling 17.5. -/
def exTarget : ℚ := 35/2

theorem exData_needed : scoreReductionNeeded exData exTarget = 18 := by
  unfold scoreReductionNeeded
  rw [show totalScore exData - exTarget = (35 : ℚ)/2 from by
    norm_num [totalScore, exData, exTask1, exTask2, exTarget]]
  rw [show Int.ceil ((35 : ℚ)/2) = 18 from by rw [Int.ceil_eq_iff]; norm_num]
  norm_num

theorem exData_selReduction (sel : Int → Bool) :
    selReduction exData sel = ind (sel 1) * 15 + ind (sel 2) * 10 := by
  simp only [selReduction, exData, exTask1, exTask2, List.map_cons, List.map_nil,
    List.sum_cons, List.sum_nil, add_zero]
  rw [pyRound_eq_of_int ((20 : ℚ) - 5) 15 (by norm_num),
    pyRound_eq_of_int ((15 : ℚ) - 5) 10 (by norm_num)]

theorem exData_selCost (sel : Int → Bool) :
    selCost exData sel =
      (if sel 1 = true then (100 : ℚ) else 0) + (if sel 2 = true then (80 : ℚ) else 0) := by
  simp [selCost, exData, exTask1, exTask2]

theorem exData_selFloat (sel : Int → Bool) :
    selFloatReduction exData sel =
      (if sel 1 = true then (15 : ℚ) else 0) + (if sel 2 = true then (10 : ℚ) else 0) := by
  simp only [selFloatReduction, exData, exTask1, exTask2, List.map_cons, List.map_nil,
    List.sum_cons, List.sum_nil, add_zero]
  norm_num

theorem exData_cpObjective (sel : Int → Bool) :
    cpObjective exData sel = ind (sel 1) * 100 + ind (sel 2) * 80 := by
  simp only [cpObjective, exData, exTask1, exTask2, List.map_cons, List.map_nil,
    List.sum_cons, List.sum_nil, add_zero]
  rw [pyRound_eq_of_int (100 : ℚ) 100 (by norm_num),
    pyRound_eq_of_int (80 : ℚ) 80 (by norm_num)]

/-- Every CP-SAT-feasible assignment for the worked example selects
both tasks and schedules Task2 after Task1 ends. -/
theorem exData_cp_forced (a : CpAssign) (h : CpFeasible exData 10 2 exTarget a) :
    a.sel 1 = true ∧ a.sel 2 = true ∧ 0 ≤ a.start 1 ∧
    a.endDay 1 = a.start 1 + 2 ∧ a.start 1 + 2 ≤ a.start 2 := by
  obtain ⟨hb, hred, hprec, _⟩ := h
  rw [exData_needed, exData_selReduction] at hred
  have hsel : a.sel 1 = true ∧ a.sel 2 = true := by
    cases hx1 : a.sel 1 <;> cases hx2 : a.sel 2 <;> rw [hx1, hx2] at hred <;>
      simp [ind] at hred
    exact ⟨rfl, rfl⟩
  obtain ⟨hsel1, hsel2⟩ := hsel
  obtain ⟨h1, h2, h3, h4, h5⟩ := hb exTask1 (by simp [exData])
  rw [show exTask1.id = 1 from rfl] at h1 h2 h3 h4 h5
  rw [show exTask1.leadTime = 2 from rfl] at h5
  have hlink := h5 hsel1
  obtain ⟨himp, hord⟩ := hprec exTask2 (by simp [exData]) 1 (by simp [exTask2])
  rw [show exTask2.id = 2 from rfl] at himp hord
  have hord2 := hord hsel2
  exact ⟨hsel1, hsel2, h1, hlink, by omega⟩

/-- Every PuLP-feasible assignment for the worked example selects both
tasks and starts Task2 at least two days after Task1's start. -/
theorem exData_pulp_forced (a : PulpAssign) (h : PulpFeasible exData 10 2 exTarget a) :
    a.sel 1 = true ∧ a.sel 2 = true ∧ 0 ≤ extractStart a 10 1 ∧
    extractStart a 10 1 + 2 ≤ extractStart a 10 2 := by
  have hscore := h.2.2.2.1
  rw [exData_selFloat,
    show totalScore exData = (35 : ℚ) from by norm_num [totalScore, exData, exTask1, exTask2],
    show exTarget = (35 : ℚ)/2 from rfl] at hscore
  have hsel : a.sel 1 = true ∧ a.sel 2 = true := by
    cases hx1 : a.sel 1 <;> cases hx2 : a.sel 2 <;> rw [hx1, hx2] at hscore <;>
      norm_num at hscore
    exact ⟨rfl, rfl⟩
  obtain ⟨hsel1, hsel2⟩ := hsel
  obtain ⟨himp, hbigm⟩ := h.2.2.2.2.1 exTask2 (by simp [exData]) 1 (by simp [exTask2])
  rw [show exTask2.id = 2 from rfl] at himp hbigm
  rw [hsel2] at hbigm
  rw [show leadOf exData 1 = 2 from rfl, show ind true = 1 from rfl] at hbigm
  have hsym1 : pulpStartSym a 10 1 = extractStart a 10 1 := by
    have := pulpStartSym_sel h (r := exTask1) (by simp [exData])
      (by rw [show exTask1.id = 1 from rfl]; exact hsel1)
    rwa [show exTask1.id = 1 from rfl] at this
  have hsym2 : pulpStartSym a 10 2 = extractStart a 10 2 := by
    have := pulpStartSym_sel h (r := exTask2) (by simp [exData])
      (by rw [show exTask2.id = 2 from rfl]; exact hsel2)
    rwa [show exTask2.id = 2 from rfl] at this
  rw [hsym1, hsym2] at hbigm
  have hpos : 0 ≤ extractStart a 10 1 := by
    obtain ⟨t0, _, h0, _, _, _, hext⟩ := pulp_start_unique h (r := exTask1)
      (by simp [exData]) (by rw [show exTask1.id = 1 from rfl]; exact hsel1)
    rw [show exTask1.id = 1 from rfl] at hext
    omega
  exact ⟨hsel1, hsel2, hpos, by omega⟩

/-- Parameterized schedule for the worked example: Task1 at day s,
Task2 at day s + 2. -/
def exCpAssign (s : Int) : CpAssign :=
  { sel := fun _ => true, start := fun i => if i = 1 then s else s + 2,
    endDay := fun i => if i = 1 then s + 2 else s + 3 }

/-- The PuLP counterpart of exCpAssign. -/
def exPulpAssign (s : Int) : PulpAssign :=
  { sel := fun _ => true, startAt := fun i t => (i == 1 && t == s) || (i == 2 && t == s + 2) }

theorem ind_nonneg (b : Bool) : 0 ≤ ind b := by cases b <;> simp [ind]

theorem sum_ind_nonneg (s : Finset Int) (f : Int → Bool) : 0 ≤ ∑ t ∈ s, ind (f t) :=
  Finset.sum_nonneg (fun t _ => ind_nonneg (f t))

theorem sum_ind_single (D s : Int) (f : Int → Bool) (h0 : 0 ≤ s) (h1 : s ≤ D)
    (hf : ∀ t, f t = true ↔ t = s) :
    (∑ t ∈ Finset.Icc 0 D, ind (f t)) = 1 := by
  rw [Finset.sum_eq_single s]
  · rw [(hf s).mpr rfl]; rfl
  · intro u _ hne
    have hu : f u = false := by
      cases hx : f u with
      | false => rfl
      | true => exact absurd ((hf u).mp hx) hne
    rw [hu]; rfl
  · intro hnot; exact absurd (Finset.mem_Icc.mpr ⟨h0, h1⟩) hnot

theorem sum_ind_le_one (s : Finset Int) (f : Int → Bool) (c : Int)
    (hf : ∀ t, f t = true ↔ t = c) : (∑ t ∈ s, ind (f t)) ≤ 1 := by
  by_cases hc : c ∈ s
  · rw [Finset.sum_eq_single c]
    · cases hx : f c <;> simp [ind]
    · intro u _ hne
      have hu : f u = false := by
        cases hx : f u with
        | false => rfl
        | true => exact absurd ((hf u).mp hx) hne
      rw [hu]; rfl
    · intro h; exact absurd hc h
  · rw [Finset.sum_eq_zero]
    · norm_num
    · intro u hu
      have hfu : f u = false := by
        cases hx : f u with
        | false => rfl
        | true => exact absurd (by rwa [(hf u).mp hx] at hu) hc
      rw [hfu]; rfl

theorem pulpStartSym_single (a : PulpAssign) (D s i : Int) (h0 : 0 ≤ s) (h1 : s ≤ D)
    (hf : ∀ t, a.startAt i t = true ↔ t = s) : pulpStartSym a D i = s := by
  unfold pulpStartSym
  rw [Finset.sum_eq_single s]
  · rw [(hf s).mpr rfl]; simp [ind]
  · intro u _ hne
    have hu : a.startAt i u = false := by
      cases hx : a.startAt i u with
      | false => rfl
      | true => exact absurd ((hf u).mp hx) hne
    rw [hu]; simp [ind]
  · intro hnot; exact absurd (Finset.mem_Icc.mpr ⟨h0, h1⟩) hnot

theorem exCp_feasible (s : Int) (h0 : 0 ≤ s) (h1 : s + 3 ≤ 10) :
    CpFeasible exData 10 2 exTarget (exCpAssign s) := by
  refine ⟨?_, ?_, ?_, ?_⟩
  · intro r hr
    have hmem : r = exTask1 ∨ r = exTask2 := by simpa [exData] using hr
    rcases hmem with rfl | rfl
    · rw [show exTask1.id = 1 from rfl, show exTask1.leadTime = 2 from rfl,
        show (exCpAssign s).start 1 = s from by simp [exCpAssign],
        show (exCpAssign s).endDay 1 = s + 2 from by simp [exCpAssign]]
      exact ⟨by omega, by omega, by omega, by omega, fun _ => by omega⟩
    · rw [show exTask2.id = 2 from rfl, show exTask2.leadTime = 1 from rfl,
        show (exCpAssign s).start 2 = s + 2 from by simp [exCpAssign],
        show (exCpAssign s).endDay 2 = s + 3 from by simp [exCpAssign]]
      exact ⟨by omega, by omega, by omega, by omega, fun _ => by omega⟩
  · rw [exData_needed, exData_selReduction]
    simp [exCpAssign, ind]
  · intro r hr p hp
    have hmem : r = exTask1 ∨ r = exTask2 := by simpa [exData] using hr
    rcases hmem with rfl | rfl
    · simp [exTask1] at hp
    · have hp1 : p = 1 := by simpa [exTask2] using hp
      subst hp1
      refine ⟨fun _ => rfl, fun _ => ?_⟩
      rw [show exTask2.id = 2 from rfl,
        show (exCpAssign s).endDay 1 = s + 2 from by simp [exCpAssign],
        show (exCpAssign s).start 2 = s + 2 from by simp [exCpAssign]]
  · intro t
    simp only [cpDemandAt, exData, List.map_cons, List.map_nil, List.sum_cons,
      List.sum_nil, add_zero]
    rw [show exTask1.id = 1 from rfl, show exTask2.id = 2 from rfl,
      show exTask1.capacity = 1 from rfl, show exTask2.capacity = 1 from rfl,
      show (exCpAssign s).start 1 = s from by simp [exCpAssign],
      show (exCpAssign s).endDay 1 = s + 2 from by simp [exCpAssign],
      show (exCpAssign s).start 2 = s + 2 from by simp [exCpAssign],
      show (exCpAssign s).endDay 2 = s + 3 from by simp [exCpAssign]]
    split_ifs <;> omega

theorem exPulp_feasible (s : Int) (h0 : 0 ≤ s) (h1 : s + 3 ≤ 10) :
    PulpFeasible exData 10 2 exTarget (exPulpAssign s) := by
  refine ⟨?_, ?_, ?_, ?_, ?_, ?_⟩
  · intro r hr t hx
    have hmem : r = exTask1 ∨ r = exTask2 := by simpa [exData] using hr
    rcases hmem with rfl | rfl
    · rw [show exTask1.id = 1 from rfl] at hx
      have : t = s := by simpa [exPulpAssign] using hx
      omega
    · rw [show exTask2.id = 2 from rfl] at hx
      have : t = s + 2 := by simpa [exPulpAssign] using hx
      omega
  · intro r hr
    have hmem : r = exTask1 ∨ r = exTask2 := by simpa [exData] using hr
    rcases hmem with rfl | rfl
    · rw [show ind ((exPulpAssign s).sel exTask1.id) = 1 from rfl]
      exact sum_ind_single 10 s _ h0 (by omega)
        (fun t => by rw [show exTask1.id = 1 from rfl]; simp [exPulpAssign])
    · rw [show ind ((exPulpAssign s).sel exTask2.id) = 1 from rfl]
      exact sum_ind_single 10 (s + 2) _ (by omega) (by omega)
        (fun t => by rw [show exTask2.id = 2 from rfl]; simp [exPulpAssign])
  · intro r hr t hlow hhigh
    have hmem : r = exTask1 ∨ r = exTask2 := by simpa [exData] using hr
    rcases hmem with rfl | rfl
    · rw [show exTask1.leadTime = 2 from rfl] at hlow
      rw [show exTask1.id = 1 from rfl]
      simp only [exPulpAssign]
      simp only [Bool.or_eq_false_iff, Bool.and_eq_false_iff]
      constructor
      · right
        simp only [beq_eq_false_iff_ne]
        omega
      · left
        decide
    · rw [show exTask2.leadTime = 1 from rfl] at hlow
      rw [show exTask2.id = 2 from rfl]
      simp only [exPulpAssign]
      simp only [Bool.or_eq_false_iff, Bool.and_eq_false_iff]
      constructor
      · left
        decide
      · right
        simp only [beq_eq_false_iff_ne]
        omega
  · rw [exData_selFloat,
      show totalScore exData = (35 : ℚ) from by norm_num [totalScore, exData, exTask1, exTask2],
      show (exPulpAssign s).sel 1 = true from rfl,
      show (exPulpAssign s).sel 2 = true from rfl,
      show exTarget = (35 : ℚ)/2 from rfl]
    norm_num
  · intro r hr p hp
    have hmem : r = exTask1 ∨ r = exTask2 := by simpa [exData] using hr
    rcases hmem with rfl | rfl
    · simp [exTask1] at hp
    · have hp1 : p = 1 := by simpa [exTask2] using hp
      subst hp1
      refine ⟨le_refl _, ?_⟩
      rw [show exTask2.id = 2 from rfl,
        pulpStartSym_single (exPulpAssign s) 10 s 1 h0 (by omega)
          (fun t => by simp [exPulpAssign]),
        pulpStartSym_single (exPulpAssign s) 10 (s + 2) 2 (by omega) (by omega)
          (fun t => by simp [exPulpAssign]),
        show leadOf exData 1 = 2 from rfl,
        show ind ((exPulpAssign s).sel 2) = 1 from rfl]
      omega
  · intro t ht
    have hS1 : (∑ k ∈ Finset.Icc (max 0 (t - exTask1.leadTime + 1)) t,
        ind ((exPulpAssign s).startAt exTask1.id k)) ≤ 1 :=
      sum_ind_le_one _ _ s
        (fun u => by rw [show exTask1.id = 1 from rfl]; simp [exPulpAssign])
    have hS2 : (∑ k ∈ Finset.Icc (max 0 (t - exTask2.leadTime + 1)) t,
        ind ((exPulpAssign s).startAt exTask2.id k)) ≤ 1 :=
      sum_ind_le_one _ _ (s + 2)
        (fun u => by rw [show exTask2.id = 2 from rfl]; simp [exPulpAssign])
    have hN1 := sum_ind_nonneg (Finset.Icc (max 0 (t - exTask1.leadTime + 1)) t)
      (fun k => (exPulpAssign s).startAt exTask1.id k)
    have hN2 := sum_ind_nonneg (Finset.Icc (max 0 (t - exTask2.leadTime + 1)) t)
      (fun k => (exPulpAssign s).startAt exTask2.id k)
    simp only [pulpUsage, exData, List.map_cons, List.map_nil, List.sum_cons,
      List.sum_nil, add_zero]
    rw [show exTask1.capacity = 1 from rfl, show exTask2.capacity = 1 from rfl]
    omega

theorem exData_selCount (sel : Int → Bool) (h1 : sel 1 = true) (h2 : sel 2 = true) :
    selCount exData sel = 2 := by
  simp [selCount, exData, show exTask1.id = 1 from rfl, show exTask2.id = 2 from rfl,
    h1, h2]

theorem exPulp_extract1 (s : Int) (h0 : 0 ≤ s) (h1 : s ≤ 10) :
    extractStart (exPulpAssign s) 10 1 = s :=
  extractStart_eq_of_unique _ _ _ _ h0 h1 (by simp [exPulpAssign])
    (fun u hu => by simpa [exPulpAssign] using hu)

theorem exPulp_extract2 (s : Int) (h0 : 0 ≤ s + 2) (h1 : s + 2 ≤ 10) :
    extractStart (exPulpAssign s) 10 2 = s + 2 :=
  extractStart_eq_of_unique _ _ _ _ h0 h1 (by simp [exPulpAssign])
    (fun u hu => by simpa [exPulpAssign] using hu)

/-- C1 amended: both models are feasible for the worked example; every
feasible assignment of either model selects both tasks (count 2, exact
cost 180, achieved score 10) and starts Task2 at least two days after
Task1, hence at day 2 or later; the claimed schedule start[Task1] = 0,
end[Task1] = 2, start[Task2] = 2 is cost-optimal in both models, but
the optimum placement is not unique (see the counterexample), so the
start days themselves are not forced on the solvers. -/
theorem worked_example_spec :
    (CpObjOptimal exData 10 2 exTarget (exCpAssign 0) ∧
      (exCpAssign 0).start 1 = 0 ∧ (exCpAssign 0).endDay 1 = 2 ∧
      (exCpAssign 0).start 2 = 2) ∧
    (PulpOptimal exData 10 2 exTarget (exPulpAssign 0) ∧
      extractStart (exPulpAssign 0) 10 1 = 0 ∧ extractStart (exPulpAssign 0) 10 2 = 2) ∧
    (∀ a : CpAssign, CpFeasible exData 10 2 exTarget a →
       a.sel 1 = true ∧ a.sel 2 = true ∧ selCount exData a.sel = 2 ∧
       selCost exData a.sel = 180 ∧
       totalScore exData - selFloatReduction exData a.sel = 10 ∧
       a.start 1 + 2 ≤ a.start 2 ∧ 2 ≤ a.start 2) ∧
    (∀ a : PulpAssign, PulpFeasible exData 10 2 exTarget a →
       a.sel 1 = true ∧ a.sel 2 = true ∧ selCount exData a.sel = 2 ∧
       selCost exData a.sel = 180 ∧
       totalScore exData - selFloatReduction exData a.sel = 10 ∧
       extractStart a 10 1 + 2 ≤ extractStart a 10 2 ∧ 2 ≤ extractStart a 10 2) := by
  have hcpAll : ∀ a : CpAssign, CpFeasible exData 10 2 exTarget a →
      a.sel 1 = true ∧ a.sel 2 = true ∧ selCount exData a.sel = 2 ∧
      selCost exData a.sel = 180 ∧
      totalScore exData - selFloatReduction exData a.sel = 10 ∧
      a.start 1 + 2 ≤ a.start 2 ∧ 2 ≤ a.start 2 := by
    intro a h
    obtain ⟨hsel1, hsel2, hpos, hlink, hord⟩ := exData_cp_forced a h
    refine ⟨hsel1, hsel2, exData_selCount a.sel hsel1 hsel2, ?_, ?_, hord, by omega⟩
    · rw [exData_selCost, hsel1, hsel2]
      norm_num
    · rw [exData_selFloat, hsel1, hsel2,
        show totalScore exData = (35 : ℚ) from by
          norm_num [totalScore, exData, exTask1, exTask2]]
      norm_num
  have hpulpAll : ∀ a : PulpAssign, PulpFeasible exData 10 2 exTarget a →
      a.sel 1 = true ∧ a.sel 2 = true ∧ selCount exData a.sel = 2 ∧
      selCost exData a.sel = 180 ∧
      totalScore exData - selFloatReduction exData a.sel = 10 ∧
      extractStart a 10 1 + 2 ≤ extractStart a 10 2 ∧ 2 ≤ extractStart a 10 2 := by
    intro a h
    obtain ⟨hsel1, hsel2, hpos, hord⟩ := exData_pulp_forced a h
    refine ⟨hsel1, hsel2, exData_selCount a.sel hsel1 hsel2, ?_, ?_, hord, by omega⟩
    · rw [exData_selCost, hsel1, hsel2]
      norm_num
    · rw [exData_selFloat, hsel1, hsel2,
        show totalScore exData = (35 : ℚ) from by
          norm_num [totalScore, exData, exTask1, exTask2]]
      norm_num
  refine ⟨⟨⟨exCp_feasible 0 (by norm_num) (by norm_num), ?_⟩, by simp [exCpAssign],
      by simp [exCpAssign], by simp [exCpAssign]⟩,
    ⟨⟨exPulp_feasible 0 (by norm_num) (by norm_num), ?_⟩,
      exPulp_extract1 0 (by norm_num) (by norm_num),
      exPulp_extract2 0 (by norm_num) (by norm_num)⟩,
    hcpAll, hpulpAll⟩
  · intro b hb
    obtain ⟨hsel1, hsel2, _⟩ := hcpAll b hb
    rw [exData_cpObjective, exData_cpObjective, hsel1, hsel2]
    rw [show (exCpAssign 0).sel 1 = true from rfl, show (exCpAssign 0).sel 2 = true from rfl]
  · intro b hb
    obtain ⟨_, _, _, hcost, _⟩ := hpulpAll b hb
    rw [hcost, exData_selCost,
      show (exPulpAssign 0).sel 1 = true from rfl,
      show (exPulpAssign 0).sel 2 = true from rfl]
    norm_num

/-- C1 counterexample: a schedule placing Task1 at day 1 (and Task2 at
day 3) is also cost-optimal in both models, so the claimed output
start[Task1] = 0, end[Task1] = 2 is one optimum among many, not the
value both strategies are guaranteed to return. -/
theorem worked_example_alt_optimum :
    CpObjOptimal exData 10 2 exTarget (exCpAssign 1) ∧ (exCpAssign 1).start 1 = 1 ∧
    PulpOptimal exData 10 2 exTarget (exPulpAssign 1) ∧
    extractStart (exPulpAssign 1) 10 1 = 1 := by
  refine ⟨⟨exCp_feasible 1 (by norm_num) (by norm_num), ?_⟩, by simp [exCpAssign],
    ⟨exPulp_feasible 1 (by norm_num) (by norm_num), ?_⟩,
    exPulp_extract1 1 (by norm_num) (by norm_num)⟩
  · intro b hb
    obtain ⟨hsel1, hsel2, _, _, _⟩ := exData_cp_forced b hb
    rw [exData_cpObjective, exData_cpObjective, hsel1, hsel2]
    rw [show (exCpAssign 1).sel 1 = true from rfl, show (exCpAssign 1).sel 2 = true from rfl]
  · intro b hb
    obtain ⟨hsel1, hsel2, _, _⟩ := exData_pulp_forced b hb
    rw [exData_selCost, exData_selCost, hsel1, hsel2,
      show (exPulpAssign 1).sel 1 = true from rfl,
      show (exPulpAssign 1).sel 2 = true from rfl]

/-- C1 amended witness: the stated optimal schedule is feasible and
every forced component evaluates as claimed on it. -/
theorem worked_example_spec_witness :
    CpFeasible exData 10 2 exTarget (exCpAssign 0) ∧
    selCount exData (exCpAssign 0).sel = 2 ∧
    selCost exData (exCpAssign 0).sel = 180 ∧
    totalScore exData - selFloatReduction exData (exCpAssign 0).sel = 10 := by
  have hfeas := exCp_feasible 0 (by norm_num) (by norm_num)
  have h := worked_example_spec.2.2.1 (exCpAssign 0) hfeas
  exact ⟨hfeas, h.2.2.1, h.2.2.2.1, h.2.2.2.2.1⟩

/-! ## Claim C2: equivalence of the two solving strategies -/

theorem list_sum_congr {α β : Type} [AddCommMonoid β] {l : List α} {f g : α → β}
    (h : ∀ x ∈ l, f x = g x) : (l.map f).sum = (l.map g).sum := by
  induction l with
  | nil => rfl
  | cons x xs ih =>
    simp only [List.map_cons, List.sum_cons]
    rw [h x (List.mem_cons_self x xs), ih (fun y hy => h y (List.mem_cons_of_mem x hy))]

theorem list_sum_nonneg_int {α : Type} {l : List α} {f : α → Int}
    (h : ∀ x ∈ l, 0 ≤ f x) : 0 ≤ (l.map f).sum := by
  induction l with
  | nil => simp
  | cons x xs ih =>
    simp only [List.map_cons, List.sum_cons]
    have h1 := h x (List.mem_cons_self x xs)
    have h2 := ih (fun y hy => h y (List.mem_cons_of_mem x hy))
    omega

/-- With unique ids the lead-time lookup of solve_with_pulp returns the
duration of the task. -/
theorem leadOf_eq (ds : List RiskTask) (hnodup : (ds.map (fun r => r.id)).Nodup)
    {r : RiskTask} (hr : r ∈ ds) : leadOf ds r.id = r.leadTime := by
  unfold leadOf
  have hsome : (ds.find? (fun q => q.id == r.id)).isSome := by
    rw [List.find?_isSome]
    exact ⟨r, hr, by simp⟩
  obtain ⟨q, hq⟩ := Option.isSome_iff_exists.mp hsome
  rw [hq]
  have hqmem : q ∈ ds := List.mem_of_find?_eq_some hq
  have hqid : q.id = r.id := by simpa using List.find?_some hq
  have heq : q = r := List.inj_on_of_nodup_map hnodup hqmem hr (by simpa using hqid)
  rw [heq]

/-- On an integer-valued dataset the rounded objective equals the exact
cost. -/
theorem cast_cpObjective : ∀ (ds : List RiskTask) (sel : Int → Bool), IntegerValued ds →
    ((cpObjective ds sel : Int) : ℚ) = selCost ds sel := by
  intro ds sel
  induction ds with
  | nil => intro h; simp [cpObjective, selCost]
  | cons r rs ih =>
    intro h
    obtain ⟨_, _, ⟨zc, hzc⟩⟩ := h r (List.mem_cons_self r rs)
    have hrs : IntegerValued rs := fun q hq => h q (List.mem_cons_of_mem r hq)
    simp only [cpObjective, selCost, List.map_cons, List.sum_cons] at ih ⊢
    rw [Int.cast_add, ih hrs]
    congr 1
    rw [hzc, pyRound_intCast]
    cases hx : sel r.id <;> simp [ind]

theorem sum_ind_eq_ite (s : Finset Int) (f : Int → Bool) (c : Int)
    (hf : ∀ u, f u = true ↔ u = c) :
    (∑ u ∈ s, ind (f u)) = if c ∈ s then 1 else 0 := by
  split_ifs with hc
  · rw [Finset.sum_eq_single c]
    · rw [(hf c).mpr rfl]; rfl
    · intro u _ hne
      have hu : f u = false := by
        cases hx : f u with
        | false => rfl
        | true => exact absurd ((hf u).mp hx) hne
      rw [hu]; rfl
    · intro h; exact absurd hc h
  · refine Finset.sum_eq_zero (fun u hu => ?_)
    have hfu : f u = false := by
      cases hx : f u with
      | false => rfl
      | true => exact absurd (by rwa [(hf u).mp hx] at hu) hc
    rw [hfu]; rfl

/-- The PuLP assignment induced by a CP-SAT assignment: start x[i][t]
set exactly at the interval start of each selected task. -/
def toPulp (a : CpAssign) : PulpAssign :=
  { sel := a.sel, startAt := fun i t => a.sel i && (a.start i == t) }

/-- The CP-SAT assignment induced by a PuLP assignment: starts read off
the x[i][t] variables, ends rebuilt from the durations. -/
def toCp (ds : List RiskTask) (D : Int) (a : PulpAssign) : CpAssign :=
  { sel := a.sel,
    start := fun i => extractStart a D i,
    endDay := fun i => if a.sel i then extractStart a D i + leadOf ds i else 0 }

/-- Resource usage of the induced PuLP assignment coincides with the
cumulative demand of the CP-SAT assignment at every day. -/
theorem toPulp_usage (ds : List RiskTask) (D C : Int) (T : ℚ) (a : CpAssign)
    (h : CpFeasible ds D C T a) (t : Int) :
    pulpUsage ds (toPulp a) t = cpDemandAt ds a t := by
  unfold pulpUsage cpDemandAt
  refine list_sum_congr (fun r hr => ?_)
  obtain ⟨hs0, hsD, he0, heD, hlink⟩ := h.1 r hr
  cases hsel : a.sel r.id with
  | false =>
    have hz : ∀ k ∈ Finset.Icc (max 0 (t - r.leadTime + 1)) t,
        ind ((toPulp a).startAt r.id k) = 0 := by
      intro k _
      rw [show (toPulp a).startAt r.id k = (a.sel r.id && (a.start r.id == k)) from rfl,
        hsel, Bool.false_and]
      rfl
    rw [Finset.sum_eq_zero hz, mul_zero, if_neg]
    rintro ⟨hcon, _⟩
    exact Bool.noConfusion hcon
  | true =>
    have hf : ∀ k, (toPulp a).startAt r.id k = true ↔ k = a.start r.id := by
      intro k
      rw [show (toPulp a).startAt r.id k = (a.sel r.id && (a.start r.id == k)) from rfl,
        hsel, Bool.true_and]
      constructor
      · intro hx
        exact (beq_iff_eq.mp hx).symm
      · intro hx
        rw [hx]
        exact beq_self_eq_true _
    rw [sum_ind_eq_ite _ _ (a.start r.id) hf]
    have hmem : (a.start r.id ∈ Finset.Icc (max 0 (t - r.leadTime + 1)) t) ↔
        (a.start r.id ≤ t ∧ t < a.endDay r.id) := by
      rw [Finset.mem_Icc, hlink hsel]
      constructor
      · rintro ⟨hx1, hx2⟩
        have := le_trans (le_max_right _ _) hx1
        exact ⟨hx2, by omega⟩
      · rintro ⟨hx1, hx2⟩
        exact ⟨max_le hs0 (by omega), hx1⟩
    by_cases hcond : a.start r.id ≤ t ∧ t < a.endDay r.id
    · rw [if_pos (hmem.mpr hcond), if_pos ⟨rfl, hcond.1, hcond.2⟩, mul_one]
    · rw [if_neg (fun hx => hcond (hmem.mp hx)),
        if_neg (fun hx => hcond ⟨hx.2.1, hx.2.2⟩), mul_zero]

/-- A CP-SAT-feasible assignment induces a PuLP-feasible one (on a
dataset with unique ids, existing predecessors, durations at most
deadline + 1, and integer-valued scores). -/
theorem cp_to_pulp (ds : List RiskTask) (D C : Int) (T : ℚ) (a : CpAssign)
    (hD : 1 ≤ D)
    (hnodup : (ds.map (fun r => r.id)).Nodup)
    (hpreds : ∀ r ∈ ds, ∀ p ∈ r.predecessors, ∃ q ∈ ds, q.id = p)
    (hdur : ∀ r ∈ ds, r.leadTime ≤ D + 1)
    (hint : IntegerValued ds)
    (h : CpFeasible ds D C T a) :
    PulpFeasible ds D C T (toPulp a) := by
  obtain ⟨hb, hred, hprec, hcum⟩ := h
  have hsym : ∀ w : RiskTask, w ∈ ds → a.sel w.id = true →
      pulpStartSym (toPulp a) D w.id = a.start w.id := by
    intro w hw hwsel
    obtain ⟨hw0, hwD, _, _, _⟩ := hb w hw
    refine pulpStartSym_single _ D _ _ hw0 hwD (fun u => ?_)
    rw [show (toPulp a).startAt w.id u = (a.sel w.id && (a.start w.id == u)) from rfl,
      hwsel, Bool.true_and]
    constructor
    · intro hx; exact (beq_iff_eq.mp hx).symm
    · intro hx; rw [hx]; exact beq_self_eq_true _
  have hsym0 : ∀ w : RiskTask, w ∈ ds → a.sel w.id = false →
      pulpStartSym (toPulp a) D w.id = 0 := by
    intro w hw hwsel
    unfold pulpStartSym
    refine Finset.sum_eq_zero (fun u _ => ?_)
    rw [show (toPulp a).startAt w.id u = (a.sel w.id && (a.start w.id == u)) from rfl,
      hwsel, Bool.false_and]
    simp [ind]
  refine ⟨?_, ?_, ?_, ?_, ?_, ?_⟩
  · intro r hr t hx
    rw [show (toPulp a).startAt r.id t = (a.sel r.id && (a.start r.id == t)) from rfl] at hx
    obtain ⟨hsel, hbeq⟩ := Bool.and_eq_true_iff.mp hx
    have ht : a.start r.id = t := beq_iff_eq.mp hbeq
    obtain ⟨hs0, hsD, _, _, _⟩ := hb r hr
    omega
  · intro r hr
    obtain ⟨hs0, hsD, _, _, _⟩ := hb r hr
    cases hsel : a.sel r.id with
    | true =>
      rw [show ind ((toPulp a).sel r.id) = ind (a.sel r.id) from rfl, hsel,
        show ind true = 1 from rfl]
      refine sum_ind_single D (a.start r.id) _ hs0 hsD (fun u => ?_)
      rw [show (toPulp a).startAt r.id u = (a.sel r.id && (a.start r.id == u)) from rfl,
        hsel, Bool.true_and]
      constructor
      · intro hx; exact (beq_iff_eq.mp hx).symm
      · intro hx; rw [hx]; exact beq_self_eq_true _
    | false =>
      rw [show ind ((toPulp a).sel r.id) = ind (a.sel r.id) from rfl, hsel,
        show ind false = 0 from rfl]
      refine Finset.sum_eq_zero (fun u _ => ?_)
      rw [show (toPulp a).startAt r.id u = (a.sel r.id && (a.start r.id == u)) from rfl,
        hsel, Bool.false_and]
      rfl
  · intro r hr t h1 h2
    obtain ⟨hs0, hsD, he0, heD, hlink⟩ := hb r hr
    rw [show (toPulp a).startAt r.id t = (a.sel r.id && (a.start r.id == t)) from rfl]
    cases hsel : a.sel r.id with
    | false => rw [Bool.false_and]
    | true =>
      rw [Bool.true_and]
      have hfit := hlink hsel
      rw [beq_eq_false_iff_ne]
      omega
  · rw [show (toPulp a).sel = a.sel from rfl]
    exact cp_score_le_target ds D C T a hint ⟨hb, hred, hprec, hcum⟩
  · intro r hr p hp
    obtain ⟨q, hq, hqid⟩ := hpreds r hr p hp
    obtain ⟨himp, hord⟩ := hprec r hr p hp
    constructor
    · rw [show (toPulp a).sel = a.sel from rfl]
      cases hx : a.sel r.id with
      | true => rw [himp hx]
      | false =>
        rw [show ind false = (0 : Int) from rfl]
        exact ind_nonneg _
    · rw [show (toPulp a).sel = a.sel from rfl, ← hqid,
        leadOf_eq ds hnodup hq]
      obtain ⟨hq0, hqD, hqe0, hqeD, hqlink⟩ := hb q hq
      cases hx : a.sel r.id with
      | true =>
        have hselq : a.sel q.id = true := by rw [hqid]; exact himp hx
        rw [hsym r hr hx, hsym q hq hselq, show ind true = 1 from rfl]
        have hordq : a.endDay q.id ≤ a.start r.id := by rw [hqid]; exact hord hx
        have hlq := hqlink hselq
        omega
      | false =>
        rw [hsym0 r hr hx, show ind false = 0 from rfl]
        cases hxq : a.sel q.id with
        | true =>
          rw [hsym q hq hxq]
          have hlq := hqlink hxq
          omega
        | false =>
          rw [hsym0 q hq hxq]
          have := hdur q hq
          omega
  · intro t ht
    rw [toPulp_usage ds D C T a ⟨hb, hred, hprec, hcum⟩ t]
    exact hcum t

/-- Within the horizon, the cumulative demand of the induced CP-SAT
assignment equals the PuLP resource usage. -/
theorem toCp_usage (ds : List RiskTask) (D C : Int) (T : ℚ) (a : PulpAssign)
    (hnodup : (ds.map (fun r => r.id)).Nodup)
    (h : PulpFeasible ds D C T a) (t : Int) :
    cpDemandAt ds (toCp ds D a) t = pulpUsage ds a t := by
  unfold cpDemandAt pulpUsage
  refine list_sum_congr (fun r hr => ?_)
  cases hsel : a.sel r.id with
  | false =>
    have hnone := pulp_unselected h hr hsel
    rw [if_neg, Finset.sum_eq_zero (fun k _ => by rw [hnone k]; rfl), mul_zero]
    rintro ⟨hcsel, _⟩
    rw [show (toCp ds D a).sel r.id = a.sel r.id from rfl, hsel] at hcsel
    exact Bool.noConfusion hcsel
  | true =>
    obtain ⟨t0, hstart, h0, hD0, hfit, huniq, hext⟩ := pulp_start_unique h hr hsel
    have hf : ∀ k, a.startAt r.id k = true ↔ k = t0 := by
      intro k
      constructor
      · exact huniq k
      · intro hk; rw [hk]; exact hstart
    rw [sum_ind_eq_ite _ _ t0 hf]
    have hcpstart : (toCp ds D a).start r.id = t0 := by
      rw [show (toCp ds D a).start r.id = extractStart a D r.id from rfl, hext]
    have hcpend : (toCp ds D a).endDay r.id = t0 + r.leadTime := by
      rw [show (toCp ds D a).endDay r.id =
          (if a.sel r.id then extractStart a D r.id + leadOf ds r.id else 0) from rfl,
        hsel, if_pos rfl, hext, leadOf_eq ds hnodup hr]
    have hmem : (t0 ∈ Finset.Icc (max 0 (t - r.leadTime + 1)) t) ↔
        (t0 ≤ t ∧ t < t0 + r.leadTime) := by
      rw [Finset.mem_Icc]
      constructor
      · rintro ⟨hx1, hx2⟩
        have := le_trans (le_max_right _ _) hx1
        exact ⟨hx2, by omega⟩
      · rintro ⟨hx1, hx2⟩
        exact ⟨max_le h0 (by omega), hx1⟩
    by_cases hcond : t0 ≤ t ∧ t < t0 + r.leadTime
    · rw [if_pos ⟨by rw [show (toCp ds D a).sel r.id = a.sel r.id from rfl, hsel],
          by rw [hcpstart]; exact hcond.1, by rw [hcpend]; exact hcond.2⟩,
        if_pos (hmem.mpr hcond), mul_one]
    · rw [if_neg, if_neg (fun hx => hcond (hmem.mp hx)), mul_zero]
      rintro ⟨_, hx2, hx3⟩
      rw [hcpstart] at hx2
      rw [hcpend] at hx3
      exact hcond ⟨hx2, hx3⟩

/-- A PuLP-feasible assignment induces a CP-SAT-feasible one (on a
dataset with unique ids, existing predecessors, positive durations,
residuals bounded by scores, and integer-valued scores). -/
theorem pulp_to_cp (ds : List RiskTask) (D C : Int) (T : ℚ) (a : PulpAssign)
    (hD : 1 ≤ D) (hC0 : 0 ≤ C)
    (hnodup : (ds.map (fun r => r.id)).Nodup)
    (hpreds : ∀ r ∈ ds, ∀ p ∈ r.predecessors, ∃ q ∈ ds, q.id = p)
    (hlead : ∀ r ∈ ds, 0 < r.leadTime)
    (hres : ∀ r ∈ ds, r.resScore ≤ r.score)
    (hint : IntegerValued ds)
    (h : PulpFeasible ds D C T a) :
    CpFeasible ds D C T (toCp ds D a) := by
  refine ⟨?_, ?_, ?_, ?_⟩
  · intro r hr
    cases hsel : a.sel r.id with
    | true =>
      obtain ⟨t0, hstart, h0, hD0, hfit, huniq, hext⟩ := pulp_start_unique h hr hsel
      have hl := hlead r hr
      have hcpstart : (toCp ds D a).start r.id = t0 := by
        rw [show (toCp ds D a).start r.id = extractStart a D r.id from rfl, hext]
      have hcpend : (toCp ds D a).endDay r.id = t0 + r.leadTime := by
        rw [show (toCp ds D a).endDay r.id =
            (if a.sel r.id then extractStart a D r.id + leadOf ds r.id else 0) from rfl,
          hsel, if_pos rfl, hext, leadOf_eq ds hnodup hr]
      rw [hcpstart, hcpend]
      exact ⟨h0, hD0, by omega, by omega, fun _ => rfl⟩
    | false =>
      have hnone := pulp_unselected h hr hsel
      have hcpstart : (toCp ds D a).start r.id = 0 := by
        rw [show (toCp ds D a).start r.id = extractStart a D r.id from rfl,
          extractStart_eq_zero a D r.id hnone]
      have hcpend : (toCp ds D a).endDay r.id = 0 := by
        rw [show (toCp ds D a).endDay r.id =
            (if a.sel r.id then extractStart a D r.id + leadOf ds r.id else 0) from rfl,
          hsel]
        rfl
      rw [hcpstart, hcpend]
      refine ⟨le_refl _, by omega, le_refl _, by omega, fun hx => ?_⟩
      rw [show (toCp ds D a).sel r.id = a.sel r.id from rfl, hsel] at hx
      exact Bool.noConfusion hx
  · rw [show (toCp ds D a).sel = a.sel from rfl]
    have hscore := h.2.2.2.1
    have hcast := cast_selReduction ds a.sel hint
    have hnn : 0 ≤ selReduction ds a.sel := by
      refine list_sum_nonneg_int (fun r hr => ?_)
      exact mul_nonneg (ind_nonneg _)
        (pyRound_nonneg (by have := hres r hr; linarith))
    have hceil : Int.ceil (totalScore ds - T) ≤ selReduction ds a.sel := by
      rw [Int.ceil_le]
      rw [← hcast] at hscore
      linarith
    exact max_le hnn hceil
  · intro r hr p hp
    obtain ⟨q, hq, hqid⟩ := hpreds r hr p hp
    obtain ⟨himp, hbigm⟩ := h.2.2.2.2.1 r hr p hp
    have hselimp : a.sel r.id = true → a.sel p = true := by
      intro hx
      cases hxp : a.sel p with
      | true => rfl
      | false =>
        rw [hx, hxp, show ind true = (1 : Int) from rfl,
          show ind false = (0 : Int) from rfl] at himp
        omega
    constructor
    · intro hx
      rw [show (toCp ds D a).sel = a.sel from rfl] at hx ⊢
      exact hselimp hx
    · intro hx
      rw [show (toCp ds D a).sel = a.sel from rfl] at hx
      have hselp : a.sel p = true := hselimp hx
      have hselq : a.sel q.id = true := by rw [hqid]; exact hselp
      rw [hx, show ind true = (1 : Int) from rfl] at hbigm
      have hsymr : pulpStartSym a D r.id = extractStart a D r.id :=
        pulpStartSym_sel h hr hx
      have hsymq : pulpStartSym a D q.id = extractStart a D q.id :=
        pulpStartSym_sel h hq hselq
      rw [hsymr] at hbigm
      rw [← hqid] at hbigm
      rw [hsymq] at hbigm
      have hcpend : (toCp ds D a).endDay p = extractStart a D q.id + q.leadTime := by
        rw [show (toCp ds D a).endDay p =
            (if a.sel p then extractStart a D p + leadOf ds p else 0) from rfl,
          hselp, if_pos rfl, ← hqid, leadOf_eq ds hnodup hq]
      rw [hcpend, show (toCp ds D a).start r.id = extractStart a D r.id from rfl]
      rw [leadOf_eq ds hnodup hq] at hbigm
      omega
  · intro t
    by_cases hin : 0 ≤ t ∧ t ≤ D
    · rw [toCp_usage ds D C T a hnodup h t]
      exact h.2.2.2.2.2 t (Finset.mem_Icc.mpr hin)
    · have hz : cpDemandAt ds (toCp ds D a) t = 0 := by
        unfold cpDemandAt
        refine List.sum_eq_zero (fun x hx => ?_)
        obtain ⟨r, hr, rfl⟩ := List.mem_map.mp hx
        rw [if_neg]
        rintro ⟨hcsel, hcs, hct⟩
        rw [show (toCp ds D a).sel r.id = a.sel r.id from rfl] at hcsel
        obtain ⟨t0, hstart, h0, hD0, hfit, huniq, hext⟩ := pulp_start_unique h hr hcsel
        rw [show (toCp ds D a).start r.id = extractStart a D r.id from rfl, hext] at hcs
        rw [show (toCp ds D a).endDay r.id =
            (if a.sel r.id then extractStart a D r.id + leadOf ds r.id else 0) from rfl,
          hcsel, if_pos rfl, hext, leadOf_eq ds hnodup hr] at hct
        exact hin ⟨by omega, by omega⟩
      rw [hz]
      exact hC0

/-- pyRound truncates when the fractional part is below one half. -/
theorem pyRound_down (q : ℚ) (z : Int) (h1 : Int.floor q = z) (h2 : q - (z : ℚ) < 1/2) :
    pyRound q = z := by
  unfold pyRound
  rw [h1, if_pos h2]

/-- C2 amended: on a validated dataset whose scores, residual scores
and costs are integer-valued, with positive deadline, non-negative
capacity and every duration at most deadline + 1 (larger durations
crash solve_with_pulp with a KeyError), the two models agree on
feasibility, and any optimal solutions returned by the two strategies
carry the same reported total cost. -/
theorem strategies_equivalent (ds : List RiskTask) (D C : Int) (T : ℚ)
    (hD : 1 ≤ D) (hC0 : 0 ≤ C)
    (hnodup : (ds.map (fun r => r.id)).Nodup)
    (hpreds : ∀ r ∈ ds, ∀ p ∈ r.predecessors, ∃ q ∈ ds, q.id = p)
    (hlead : ∀ r ∈ ds, 0 < r.leadTime)
    (hres : ∀ r ∈ ds, r.resScore ≤ r.score)
    (hint : IntegerValued ds)
    (hdur : ∀ r ∈ ds, r.leadTime ≤ D + 1) :
    (CpSatFeasibleInstance ds D C T ↔ PulpFeasibleInstance ds D C T) ∧
    (∀ (a : CpAssign) (b : PulpAssign),
       CpObjOptimal ds D C T a → PulpOptimal ds D C T b →
       selCost ds a.sel = selCost ds b.sel) := by
  constructor
  · constructor
    · rintro ⟨a, ha⟩
      exact ⟨toPulp a, cp_to_pulp ds D C T a hD hnodup hpreds hdur hint ha⟩
    · rintro ⟨b, hb⟩
      exact ⟨toCp ds D b, pulp_to_cp ds D C T b hD hC0 hnodup hpreds hlead hres hint hb⟩
  · rintro a b ⟨haf, hamin⟩ ⟨hbf, hbmin⟩
    have h1 : selCost ds a.sel ≤ selCost ds b.sel := by
      have hmin := hamin (toCp ds D b)
        (pulp_to_cp ds D C T b hD hC0 hnodup hpreds hlead hres hint hbf)
      rw [show (toCp ds D b).sel = b.sel from rfl] at hmin
      have hca := cast_cpObjective ds a.sel hint
      have hcb := cast_cpObjective ds b.sel hint
      rw [← hca, ← hcb]
      exact_mod_cast hmin
    have h2 : selCost ds b.sel ≤ selCost ds a.sel := by
      have hmin := hbmin (toPulp a)
        (cp_to_pulp ds D C T a hD hnodup hpreds hdur hint haf)
      rw [show (toPulp a).sel = a.sel from rfl] at hmin
      exact hmin
    linarith

/-- Single task with a fractional score. -/
def c2Task : RiskTask :=
  { id := 1, score := 12/5, resScore := 0, cta := 10, leadTime := 1, capacity := 1,
    predecessors := [] }

/-- PuLP placement of the fractional task at day 0. -/
def c2PulpWit : PulpAssign :=
  { sel := fun _ => true, startAt := fun i t => i == 1 && t == 0 }

/-- C2 counterexample: with a fractional score (2.4, residual 0, target
0) the PuLP model is feasible (2.4 - 2.4 <= 0 exactly) while the CP-SAT
model is infeasible (the rounded reduction 2 cannot reach the required
ceil(2.4) = 3), so the strategies disagree on feasibility. -/
theorem strategies_disagree_fractional :
    PulpFeasibleInstance [c2Task] 2 1 0 ∧ ¬ CpSatFeasibleInstance [c2Task] 2 1 0 := by
  constructor
  · refine ⟨c2PulpWit, ?_, ?_, ?_, ?_, ?_, ?_⟩
    · intro r hr t hx
      have : r = c2Task := by simpa using hr
      subst this
      rw [show c2Task.id = 1 from rfl] at hx
      have ht : t = 0 := by simpa [c2PulpWit] using hx
      omega
    · intro r hr
      have : r = c2Task := by simpa using hr
      subst this
      decide
    · intro r hr t h1 h2
      have : r = c2Task := by simpa using hr
      subst this
      simp [c2Task] at h1
      simp [c2PulpWit]
      omega
    · rw [show selFloatReduction [c2Task] c2PulpWit.sel = (12/5 : ℚ) - 0 from by
          simp [selFloatReduction, c2Task, c2PulpWit],
        show totalScore [c2Task] = (12/5 : ℚ) from by simp [totalScore, c2Task]]
      norm_num
    · intro r hr p hp
      have : r = c2Task := by simpa using hr
      subst this
      simp [c2Task] at hp
    · decide
  · rintro ⟨a, hb, hred, _, _⟩
    have hneed : scoreReductionNeeded [c2Task] 0 = 3 := by
      unfold scoreReductionNeeded
      rw [show totalScore [c2Task] - 0 = (12/5 : ℚ) from by norm_num [totalScore, c2Task]]
      rw [show Int.ceil ((12/5 : ℚ)) = 3 from by rw [Int.ceil_eq_iff]; norm_num]
      norm_num
    have hpy : pyRound ((12/5 : ℚ) - 0) = 2 := by
      refine pyRound_down _ 2 ?_ (by norm_num)
      rw [show ((12/5 : ℚ) - 0) = (12/5 : ℚ) from by norm_num]
      rw [Int.floor_eq_iff]
      norm_num
    have hselred : selReduction [c2Task] a.sel = ind (a.sel 1) * 2 := by
      simp only [selReduction, c2Task, List.map_cons, List.map_nil, List.sum_cons,
        List.sum_nil, add_zero]
      rw [hpy]
    rw [hneed, hselred] at hred
    cases hx : a.sel 1 with
    | true => rw [hx, show ind true = (1 : Int) from rfl] at hred; omega
    | false => rw [hx, show ind false = (0 : Int) from rfl] at hred; omega

/-- C2 amended witness: on the integer-valued demo dataset the
equivalence applies and transfers CP-SAT feasibility to PuLP
feasibility. -/
theorem strategies_equivalent_witness :
    IntegerValued [demoTask] ∧ (1 : Int) ≤ 2 ∧ (0 : Int) ≤ 1 ∧
    PulpFeasibleInstance [demoTask] 2 1 100 := by
  have hint : IntegerValued [demoTask] := by
    intro r hr
    have : r = demoTask := by simpa using hr
    subst this
    exact ⟨⟨10, by norm_num [demoTask]⟩, ⟨2, by norm_num [demoTask]⟩,
      ⟨100, by norm_num [demoTask]⟩⟩
  refine ⟨hint, by norm_num, by norm_num, ?_⟩
  refine (strategies_equivalent [demoTask] 2 1 100 (by norm_num) (by norm_num)
    (by simp)
    (fun r hr p hp => by
      have : r = demoTask := by simpa using hr
      subst this
      simp [demoTask] at hp)
    (fun r hr => by
      have : r = demoTask := by simpa using hr
      subst this
      norm_num [demoTask])
    (fun r hr => by
      have : r = demoTask := by simpa using hr
      subst this
      norm_num [demoTask])
    hint
    (fun r hr => by
      have : r = demoTask := by simpa using hr
      subst this
      norm_num [demoTask])).1.mp
    ⟨emptyCpAssign, demo_cp_feasible 2 1 (by norm_num) (by norm_num)⟩

/-! ## Correctness of the cycle detection dfs -/

theorem mem_inGraphPreds {g : List (Int × List Int)} {n p : Int} :
    p ∈ inGraphPreds g n ↔ p ∈ predsOf g n ∧ p ∈ keysOf g := by
  simp [inGraphPreds, List.mem_filter]

theorem foldl_dfsStep_cons (F : List Int → Int → Option (Option (List Int)))
    (vis : List Int) (p : Int) (ps : List Int) :
    (p :: ps).foldl (fun acc q => dfsStep F acc q) (some (some vis)) =
      ps.foldl (fun acc q => dfsStep F acc q) (F vis p) := rfl

theorem foldl_dfsStep_frozen_none (F : List Int → Int → Option (Option (List Int)))
    (ps : List Int) :
    ps.foldl (fun acc q => dfsStep F acc q) Option.none = Option.none := by
  induction ps with
  | nil => rfl
  | cons p ps ih =>
    rw [List.foldl_cons]
    exact ih

theorem foldl_dfsStep_frozen_cyc (F : List Int → Int → Option (Option (List Int)))
    (ps : List Int) :
    ps.foldl (fun acc q => dfsStep F acc q) (some Option.none) = some Option.none := by
  induction ps with
  | nil => rfl
  | cons p ps ih =>
    rw [List.foldl_cons]
    exact ih

theorem keysOf_graphOf (ds : List RiskTask) :
    keysOf (graphOf ds) = ds.map (fun r => r.id) := by
  simp [keysOf, graphOf, List.map_map, Function.comp]

theorem predsOf_graphOf (ds : List RiskTask) (hnodup : (ds.map (fun r => r.id)).Nodup)
    {r : RiskTask} (hr : r ∈ ds) : predsOf (graphOf ds) r.id = r.predecessors := by
  unfold predsOf
  have hsome : ((graphOf ds).find? (fun p => p.1 == r.id)).isSome := by
    rw [List.find?_isSome]
    exact ⟨(r.id, r.predecessors), List.mem_map.mpr ⟨r, hr, rfl⟩, by simp⟩
  obtain ⟨q, hq⟩ := Option.isSome_iff_exists.mp hsome
  rw [hq]
  have hqmem : q ∈ graphOf ds := List.mem_of_find?_eq_some hq
  have hqid : q.1 = r.id := by simpa using List.find?_some hq
  obtain ⟨s, hs, hsq⟩ := List.mem_map.mp hqmem
  have hsid : s.id = r.id := by rw [← hsq] at hqid; exact hqid
  have heq : s = r := List.inj_on_of_nodup_map hnodup hs hr (by simpa using hsid)
  rw [← hsq, heq]

theorem gedge_iff_spec (ds : List RiskTask) (hnodup : (ds.map (fun r => r.id)).Nodup)
    (hex : ∀ r ∈ ds, ∀ p ∈ r.predecessors, p ∈ ds.map (fun q => q.id)) (x y : Int) :
    GEdge (graphOf ds) x y ↔ (∃ r ∈ ds, r.id = x ∧ y ∈ r.predecessors) := by
  constructor
  · rintro ⟨hx, hy, -⟩
    rw [keysOf_graphOf] at hx
    obtain ⟨r, hr, hrid⟩ := List.mem_map.mp hx
    refine ⟨r, hr, hrid, ?_⟩
    rw [← hrid, predsOf_graphOf ds hnodup hr] at hy
    exact hy
  · rintro ⟨r, hr, hrid, hy⟩
    subst hrid
    refine ⟨?_, ?_, ?_⟩
    · rw [keysOf_graphOf]
      exact List.mem_map.mpr ⟨r, hr, rfl⟩
    · rw [predsOf_graphOf ds hnodup hr]
      exact hy
    · rw [keysOf_graphOf]
      exact hex r hr y hy

theorem hasCycleSpec_iff_gedge (ds : List RiskTask)
    (hnodup : (ds.map (fun r => r.id)).Nodup)
    (hex : ∀ r ∈ ds, ∀ p ∈ r.predecessors, p ∈ ds.map (fun q => q.id)) :
    HasCycleSpec ds ↔ ∃ x, Relation.TransGen (GEdge (graphOf ds)) x x := by
  unfold HasCycleSpec
  constructor
  · rintro ⟨x, hx⟩
    exact ⟨x, Relation.TransGen.mono
      (fun a b hab => (gedge_iff_spec ds hnodup hex a b).mpr hab) hx⟩
  · rintro ⟨x, hx⟩
    exact ⟨x, Relation.TransGen.mono
      (fun a b hab => (gedge_iff_spec ds hnodup hex a b).mp hab) hx⟩

theorem dfs_no_fuel (g : List (Int × List Int)) :
    ∀ (fuel : Nat) (visiting visited : List Int) (node : Int),
      visiting.Nodup → (∀ v ∈ visiting, v ∈ keysOf g) → node ∈ keysOf g →
      (keysOf g).length + 1 ≤ fuel + visiting.length →
      dfsVisit g fuel visiting visited node ≠ Option.none := by
  intro fuel
  induction fuel with
  | zero =>
    intro visiting visited node hnd hsub hnode hlen
    have hle : visiting.length ≤ (keysOf g).length :=
      List.Subperm.length_le (List.subperm_of_subset hnd hsub)
    exfalso
    omega
  | succ fuel ih =>
    intro visiting visited node hnd hsub hnode hlen hnone
    rw [dfsVisit] at hnone
    by_cases hvd : node ∈ visited
    · rw [if_pos hvd] at hnone
      exact Option.noConfusion hnone
    · rw [if_neg hvd] at hnone
      by_cases hvg : node ∈ visiting
      · rw [if_pos hvg] at hnone
        exact Option.noConfusion hnone
      · rw [if_neg hvg] at hnone
        have hfold : ∀ (ps : List Int), (∀ p ∈ ps, p ∈ keysOf g) →
            ∀ vis : List Int,
            ps.foldl
              (fun acc q => dfsStep (fun v u => dfsVisit g fuel (node :: visiting) v u) acc q)
              (some (some vis)) ≠ Option.none := by
          intro ps
          induction ps with
          | nil =>
            intro _ vis h
            exact Option.noConfusion h
          | cons p ps ihp =>
            intro hps vis h
            rw [foldl_dfsStep_cons] at h
            replace h : ps.foldl
                (fun acc q => dfsStep (fun v u => dfsVisit g fuel (node :: visiting) v u) acc q)
                (dfsVisit g fuel (node :: visiting) vis p) = Option.none := h
            cases hres : dfsVisit g fuel (node :: visiting) vis p with
            | none =>
              refine absurd hres (ih (node :: visiting) vis p ?_ ?_ ?_ ?_)
              · exact List.nodup_cons.mpr ⟨hvg, hnd⟩
              · intro v hv
                rcases List.mem_cons.mp hv with rfl | hv2
                · exact hnode
                · exact hsub v hv2
              · exact hps p (List.mem_cons_self p ps)
              · simp only [List.length_cons]
                omega
            | some o =>
              rw [hres] at h
              cases o with
              | none =>
                rw [foldl_dfsStep_frozen_cyc] at h
                exact Option.noConfusion h
              | some v2 =>
                exact ihp (fun q hq => hps q (List.mem_cons_of_mem p hq)) v2 h
        cases hfres : (inGraphPreds g node).foldl
            (fun acc q => dfsStep (fun v u => dfsVisit g fuel (node :: visiting) v u) acc q)
            (some (some visited)) with
        | none =>
          exact hfold (inGraphPreds g node)
            (fun p hp => (mem_inGraphPreds.mp hp).2) visited hfres
        | some o =>
          rw [hfres] at hnone
          cases o with
          | none => exact Option.noConfusion hnone
          | some v2 => exact Option.noConfusion hnone

theorem dfsAll_ne_none (g : List (Int × List Int)) (fuel : Nat)
    (hfuel : (keysOf g).length + 1 ≤ fuel) :
    ∀ (nodes visited : List Int), (∀ n ∈ nodes, n ∈ keysOf g) →
      dfsAll g fuel visited nodes ≠ Option.none := by
  intro nodes
  induction nodes with
  | nil =>
    intro visited _ h
    rw [dfsAll] at h
    exact Option.noConfusion h
  | cons n ns ih =>
    intro visited hmem h
    rw [dfsAll] at h
    cases hres : dfsVisit g fuel [] visited n with
    | none =>
      exact absurd hres (dfs_no_fuel g fuel [] visited n List.nodup_nil
        (by simp) (hmem n (List.mem_cons_self n ns)) (by simpa using hfuel))
    | some o =>
      rw [hres] at h
      cases o with
      | none => exact Option.noConfusion h
      | some v2 => exact ih v2 (fun m hm => hmem m (List.mem_cons_of_mem n hm)) h

theorem dfsVisit_success (g : List (Int × List Int)) :
    ∀ (fuel : Nat) (visiting visited : List Int) (node : Int) (visited2 : List Int),
      dfsVisit g fuel visiting visited node = some (some visited2) →
      TopoOrdered g visited → visited.Nodup →
      TopoOrdered g visited2 ∧ visited2.Nodup ∧
        (∀ x ∈ visited, x ∈ visited2) ∧ node ∈ visited2 ∧
        (∀ x ∈ visited2, x ∈ visited ∨ x ∉ visiting) := by
  intro fuel
  induction fuel with
  | zero =>
    intro visiting visited node visited2 h
    rw [dfsVisit] at h
    exact Option.noConfusion h
  | succ fuel ih =>
    intro visiting visited node visited2 h htopo hnd
    rw [dfsVisit] at h
    by_cases hvd : node ∈ visited
    · rw [if_pos hvd] at h
      simp only [Option.some.injEq] at h
      subst h
      exact ⟨htopo, hnd, fun x hx => hx, hvd, fun x hx => Or.inl hx⟩
    · rw [if_neg hvd] at h
      by_cases hvg : node ∈ visiting
      · rw [if_pos hvg] at h
        simp only [Option.some.injEq] at h
        exact Option.noConfusion h
      · rw [if_neg hvg] at h
        have hfold : ∀ (ps : List Int), ∀ (vis vis2 : List Int),
            ps.foldl
              (fun acc q => dfsStep (fun v u => dfsVisit g fuel (node :: visiting) v u) acc q)
              (some (some vis)) = some (some vis2) →
            TopoOrdered g vis → vis.Nodup →
            TopoOrdered g vis2 ∧ vis2.Nodup ∧ (∀ x ∈ vis, x ∈ vis2) ∧
              (∀ p ∈ ps, p ∈ vis2) ∧
              (∀ x ∈ vis2, x ∈ vis ∨ x ∉ (node :: visiting)) := by
          intro ps
          induction ps with
          | nil =>
            intro vis vis2 hh ht hn
            simp only [List.foldl_nil, Option.some.injEq] at hh
            subst hh
            exact ⟨ht, hn, fun x hx => hx,
              fun p hp => absurd hp (List.not_mem_nil p), fun x hx => Or.inl hx⟩
          | cons p ps ihp =>
            intro vis vis2 hh ht hn
            rw [foldl_dfsStep_cons] at hh
            replace hh : ps.foldl
                (fun acc q => dfsStep (fun v u => dfsVisit g fuel (node :: visiting) v u) acc q)
                (dfsVisit g fuel (node :: visiting) vis p) = some (some vis2) := hh
            cases hres : dfsVisit g fuel (node :: visiting) vis p with
            | none =>
              rw [hres, foldl_dfsStep_frozen_none] at hh
              exact Option.noConfusion hh
            | some o =>
              rw [hres] at hh
              cases o with
              | none =>
                rw [foldl_dfsStep_frozen_cyc] at hh
                simp only [Option.some.injEq] at hh
                exact Option.noConfusion hh
              | some vmid =>
                obtain ⟨ht1, hn1, hsub1, hmem1, hnew1⟩ :=
                  ih (node :: visiting) vis p vmid hres ht hn
                obtain ⟨ht2, hn2, hsub2, hall2, hnew2⟩ := ihp vmid vis2 hh ht1 hn1
                refine ⟨ht2, hn2, fun x hx => hsub2 x (hsub1 x hx), ?_, ?_⟩
                · intro q hq
                  rcases List.mem_cons.mp hq with rfl | hq2
                  · exact hsub2 q hmem1
                  · exact hall2 q hq2
                · intro x hx
                  rcases hnew2 x hx with hx1 | hx2
                  · exact hnew1 x hx1
                  · exact Or.inr hx2
        cases hfres : (inGraphPreds g node).foldl
            (fun acc q => dfsStep (fun v u => dfsVisit g fuel (node :: visiting) v u) acc q)
            (some (some visited)) with
        | none =>
          rw [hfres] at h
          exact Option.noConfusion h
        | some o =>
          rw [hfres] at h
          cases o with
          | none =>
            simp only [Option.some.injEq] at h
            exact Option.noConfusion h
          | some vmid =>
            simp only [Option.some.injEq] at h
            obtain ⟨ht1, hn1, hsub1, hall1, hnew1⟩ :=
              hfold (inGraphPreds g node) visited vmid hfres htopo hnd
            subst h
            have hnodenot : node ∉ vmid := by
              intro hmem
              rcases hnew1 node hmem with h1 | h2
              · exact hvd h1
              · exact h2 (List.mem_cons_self node visiting)
            refine ⟨⟨hall1, ht1⟩, List.nodup_cons.mpr ⟨hnodenot, hn1⟩,
              fun x hx => List.mem_cons_of_mem node (hsub1 x hx),
              List.mem_cons_self node vmid, ?_⟩
            intro x hx
            rcases List.mem_cons.mp hx with rfl | hx2
            · exact Or.inr hvg
            · rcases hnew1 x hx2 with h1 | h2
              · exact Or.inl h1
              · exact Or.inr (fun hmem => h2 (List.mem_cons_of_mem node hmem))

theorem dfsAll_success (g : List (Int × List Int)) (fuel : Nat) :
    ∀ (nodes visited visitedF : List Int),
      dfsAll g fuel visited nodes = some (some visitedF) →
      TopoOrdered g visited → visited.Nodup →
      TopoOrdered g visitedF ∧ visitedF.Nodup ∧
        (∀ n ∈ nodes, n ∈ visitedF) ∧ (∀ x ∈ visited, x ∈ visitedF) := by
  intro nodes
  induction nodes with
  | nil =>
    intro visited visitedF h ht hn
    rw [dfsAll] at h
    simp only [Option.some.injEq] at h
    subst h
    exact ⟨ht, hn, fun n hmem => absurd hmem (List.not_mem_nil n), fun x hx => hx⟩
  | cons n ns ih =>
    intro visited visitedF h ht hnd
    rw [dfsAll] at h
    cases hres : dfsVisit g fuel [] visited n with
    | none =>
      rw [hres] at h
      exact Option.noConfusion h
    | some o =>
      rw [hres] at h
      cases o with
      | none =>
        simp only [Option.some.injEq] at h
        exact Option.noConfusion h
      | some v2 =>
        obtain ⟨ht1, hn1, hsub1, hmem1, -⟩ :=
          dfsVisit_success g fuel [] visited n v2 hres ht hnd
        obtain ⟨ht2, hn2, hall2, hsub2⟩ := ih v2 visitedF h ht1 hn1
        refine ⟨ht2, hn2, ?_, fun x hx => hsub2 x (hsub1 x hx)⟩
        intro m hm
        rcases List.mem_cons.mp hm with rfl | hm2
        · exact hsub2 m hmem1
        · exact hall2 m hm2

theorem topo_pred_mem (g : List (Int × List Int)) :
    ∀ (v : List Int), TopoOrdered g v → ∀ a ∈ v, ∀ b ∈ inGraphPreds g a, b ∈ v := by
  intro v
  induction v with
  | nil =>
    intro _ a ha
    exact absurd ha (List.not_mem_nil a)
  | cons c rest ih =>
    intro ht a ha b hb
    rcases List.mem_cons.mp ha with rfl | ha2
    · exact List.mem_cons_of_mem _ (ht.1 b hb)
    · exact List.mem_cons_of_mem _ (ih ht.2 a ha2 b hb)

theorem topo_edge_index (g : List (Int × List Int)) :
    ∀ (v : List Int), TopoOrdered g v → v.Nodup →
      ∀ a b : Int, b ∈ inGraphPreds g a → a ∈ v →
      v.indexOf a < v.indexOf b := by
  intro v
  induction v with
  | nil =>
    intro _ _ a b _ ha
    exact absurd ha (List.not_mem_nil a)
  | cons c rest ih =>
    intro ht hnd a b hb ha
    have hcrest : c ∉ rest := (List.nodup_cons.mp hnd).1
    rcases List.mem_cons.mp ha with rfl | ha2
    · have hbrest : b ∈ rest := ht.1 b hb
      have hbne : b ≠ a := fun hh => hcrest (hh ▸ hbrest)
      rw [List.indexOf_cons_self, List.indexOf_cons_ne rest (Ne.symm hbne)]
      omega
    · have hbrest : b ∈ rest := topo_pred_mem g rest ht.2 a ha2 b hb
      have hane : a ≠ c := fun hh => hcrest (hh ▸ ha2)
      have hbne : b ≠ c := fun hh => hcrest (hh ▸ hbrest)
      rw [List.indexOf_cons_ne rest (Ne.symm hane), List.indexOf_cons_ne rest (Ne.symm hbne)]
      have := ih ht.2 (List.nodup_cons.mp hnd).2 a b hb ha2
      omega

theorem topo_no_cycle (g : List (Int × List Int)) (v : List Int)
    (ht : TopoOrdered g v) (hnd : v.Nodup) (hcov : ∀ x ∈ keysOf g, x ∈ v) :
    ¬ ∃ x, Relation.TransGen (GEdge g) x x := by
  rintro ⟨x, hx⟩
  have hmono : ∀ a b : Int, Relation.TransGen (GEdge g) a b →
      v.indexOf a < v.indexOf b := by
    intro a b hab
    induction hab with
    | single he =>
      exact topo_edge_index g v ht hnd _ _
        (mem_inGraphPreds.mpr ⟨he.2.1, he.2.2⟩) (hcov _ he.1)
    | tail hab2 hbc ihab =>
      exact lt_trans ihab (topo_edge_index g v ht hnd _ _
        (mem_inGraphPreds.mpr ⟨hbc.2.1, hbc.2.2⟩) (hcov _ hbc.1))
  exact absurd (hmono x x hx) (lt_irrefl _)

theorem vischain_cycle (g : List (Int × List Int)) :
    ∀ (vis : List Int) (node : Int), VisChain g vis node → node ∈ keysOf g →
      ∀ x ∈ vis, Relation.TransGen (GEdge g) x node := by
  intro vis
  induction vis with
  | nil =>
    intro node _ _ x hx
    exact absurd hx (List.not_mem_nil x)
  | cons h t ih =>
    intro node hch hkey x hx
    obtain ⟨hpred, hhkey, hrest⟩ := hch
    have hedge : GEdge g h node := ⟨hhkey, (mem_inGraphPreds.mp hpred).1, hkey⟩
    rcases List.mem_cons.mp hx with rfl | hx2
    · exact Relation.TransGen.single hedge
    · exact Relation.TransGen.tail (ih h hrest hhkey x hx2) hedge

theorem dfsVisit_cyc (g : List (Int × List Int)) :
    ∀ (fuel : Nat) (visiting visited : List Int) (node : Int),
      dfsVisit g fuel visiting visited node = some Option.none →
      VisChain g visiting node → node ∈ keysOf g →
      ∃ x, Relation.TransGen (GEdge g) x x := by
  intro fuel
  induction fuel with
  | zero =>
    intro visiting visited node h
    rw [dfsVisit] at h
    exact Option.noConfusion h
  | succ fuel ih =>
    intro visiting visited node h hch hkey
    rw [dfsVisit] at h
    by_cases hvd : node ∈ visited
    · rw [if_pos hvd] at h
      simp only [Option.some.injEq] at h
      exact Option.noConfusion h
    · rw [if_neg hvd] at h
      by_cases hvg : node ∈ visiting
      · exact ⟨node, vischain_cycle g visiting node hch hkey node hvg⟩
      · rw [if_neg hvg] at h
        have hfold : ∀ (ps : List Int), (∀ p ∈ ps, p ∈ inGraphPreds g node) →
            ∀ (vis : List Int),
            ps.foldl
              (fun acc q => dfsStep (fun v u => dfsVisit g fuel (node :: visiting) v u) acc q)
              (some (some vis)) = some Option.none →
            ∃ x, Relation.TransGen (GEdge g) x x := by
          intro ps
          induction ps with
          | nil =>
            intro _ vis hh
            simp only [List.foldl_nil, Option.some.injEq] at hh
            exact Option.noConfusion hh
          | cons p ps ihp =>
            intro hps vis hh
            rw [foldl_dfsStep_cons] at hh
            replace hh : ps.foldl
                (fun acc q => dfsStep (fun v u => dfsVisit g fuel (node :: visiting) v u) acc q)
                (dfsVisit g fuel (node :: visiting) vis p) = some Option.none := hh
            cases hres : dfsVisit g fuel (node :: visiting) vis p with
            | none =>
              rw [hres, foldl_dfsStep_frozen_none] at hh
              exact Option.noConfusion hh
            | some o =>
              rw [hres] at hh
              cases o with
              | none =>
                have hp := hps p (List.mem_cons_self p ps)
                exact ih (node :: visiting) vis p hres
                  ⟨hp, hkey, hch⟩ (mem_inGraphPreds.mp hp).2
              | some vmid =>
                exact ihp (fun q hq => hps q (List.mem_cons_of_mem p hq)) vmid hh
        cases hfres : (inGraphPreds g node).foldl
            (fun acc q => dfsStep (fun v u => dfsVisit g fuel (node :: visiting) v u) acc q)
            (some (some visited)) with
        | none =>
          rw [hfres] at h
          exact Option.noConfusion h
        | some o =>
          rw [hfres] at h
          cases o with
          | none =>
            exact hfold (inGraphPreds g node) (fun p hp => hp) visited hfres
          | some vmid =>
            simp only [Option.some.injEq] at h
            exact Option.noConfusion h

theorem dfsAll_cyc (g : List (Int × List Int)) (fuel : Nat) :
    ∀ (nodes visited : List Int),
      dfsAll g fuel visited nodes = some Option.none →
      (∀ n ∈ nodes, n ∈ keysOf g) →
      ∃ x, Relation.TransGen (GEdge g) x x := by
  intro nodes
  induction nodes with
  | nil =>
    intro visited h _
    rw [dfsAll] at h
    simp only [Option.some.injEq] at h
    exact Option.noConfusion h
  | cons n ns ih =>
    intro visited h hmem
    rw [dfsAll] at h
    cases hres : dfsVisit g fuel [] visited n with
    | none =>
      rw [hres] at h
      exact Option.noConfusion h
    | some o =>
      rw [hres] at h
      cases o with
      | none =>
        exact dfsVisit_cyc g fuel [] visited n hres trivial
          (hmem n (List.mem_cons_self n ns))
      | some v2 =>
        exact ih v2 h (fun m hm => hmem m (List.mem_cons_of_mem n hm))

theorem ensureAcyclic_ok_iff (ds : List RiskTask) :
    ensureAcyclicDependencyGraph ds = Except.ok () ↔
      ¬ ∃ x, Relation.TransGen (GEdge (graphOf ds)) x x := by
  have hchar : ensureAcyclicDependencyGraph ds =
      match dfsAll (graphOf ds) ((graphOf ds).length + 1) [] (keysOf (graphOf ds)) with
      | some (some _) => Except.ok ()
      | _ => Except.error "Dependency graph contains a cycle." := rfl
  have hlen : (keysOf (graphOf ds)).length + 1 ≤ (graphOf ds).length + 1 := by
    simp [keysOf]
  rw [hchar]
  cases hres : dfsAll (graphOf ds) ((graphOf ds).length + 1) [] (keysOf (graphOf ds)) with
  | none =>
    exact absurd hres
      (dfsAll_ne_none (graphOf ds) _ hlen (keysOf (graphOf ds)) [] (fun n hn => hn))
  | some o =>
    cases o with
    | none =>
      constructor
      · intro hcontra
        exact Except.noConfusion hcontra
      · intro hno
        exact absurd
          (dfsAll_cyc (graphOf ds) _ (keysOf (graphOf ds)) [] hres (fun n hn => hn)) hno
    | some vF =>
      constructor
      · intro _
        obtain ⟨ht, hnd, hcov, -⟩ := dfsAll_success (graphOf ds) _
          (keysOf (graphOf ds)) [] vF hres trivial List.nodup_nil
        exact topo_no_cycle (graphOf ds) vF ht hnd hcov
      · intro _
        rfl

theorem checkRowPreds_ok_iff (allIds : List Int) (rid : Int) :
    ∀ ps : List Int, checkRowPreds allIds rid ps = Except.ok () ↔
      (∀ p ∈ ps, p ∈ allIds ∧ p ≠ rid) := by
  intro ps
  induction ps with
  | nil => simp [checkRowPreds]
  | cons p ps ih =>
    rw [checkRowPreds]
    by_cases h1 : p ∉ allIds
    · rw [if_pos h1]
      constructor
      · intro hcontra
        exact Except.noConfusion hcontra
      · intro hall
        exact absurd (hall p (List.mem_cons_self p ps)).1 h1
    · rw [if_neg h1]
      push_neg at h1
      by_cases h2 : p = rid
      · rw [if_pos h2]
        constructor
        · intro hcontra
          exact Except.noConfusion hcontra
        · intro hall
          exact absurd h2 (hall p (List.mem_cons_self p ps)).2
      · rw [if_neg h2, ih]
        constructor
        · intro hall q hq
          rcases List.mem_cons.mp hq with rfl | hq2
          · exact ⟨h1, h2⟩
          · exact hall q hq2
        · intro hall q hq
          exact hall q (List.mem_cons_of_mem p hq)

theorem checkPreds_ok_iff (allIds : List Int) :
    ∀ rows : List RiskTask, checkPreds allIds rows = Except.ok () ↔
      (∀ r ∈ rows, ∀ p ∈ r.predecessors, p ∈ allIds ∧ p ≠ r.id) := by
  intro rows
  induction rows with
  | nil => simp [checkPreds]
  | cons r rs ih =>
    cases hrow : checkRowPreds allIds r.id r.predecessors with
    | ok u =>
      rw [checkPreds, hrow]
      show checkPreds allIds rs = Except.ok () ↔ _
      rw [ih]
      have hrowp : ∀ p ∈ r.predecessors, p ∈ allIds ∧ p ≠ r.id :=
        (checkRowPreds_ok_iff allIds r.id r.predecessors).mp (by rw [hrow])
      constructor
      · intro hall q hq
        rcases List.mem_cons.mp hq with rfl | hq2
        · exact hrowp
        · exact hall q hq2
      · intro hall q hq
        exact hall q (List.mem_cons_of_mem r hq)
    | error e =>
      rw [checkPreds, hrow]
      show Except.error e = Except.ok () ↔ _
      constructor
      · intro hcontra
        exact Except.noConfusion hcontra
      · intro hall
        have hok : checkRowPreds allIds r.id r.predecessors = Except.ok () :=
          (checkRowPreds_ok_iff allIds r.id r.predecessors).mpr
            (fun p hp => hall r (List.mem_cons_self r rs) p hp)
        rw [hrow] at hok
        exact Except.noConfusion hok

/-- C5 counterexample: the empty dataset satisfies every acceptance
condition listed by the claim (unique ids, positive durations and
demands, non-negative costs and scores, residual at most score,
existing predecessors, no self-dependency, acyclic graph - all
vacuously), yet validate_risk_data raises "Risk dataset is empty."
instead of returning normally, so the claimed iff fails. -/
theorem validator_rejects_empty :
    validateRiskData [] = Except.error "Risk dataset is empty." ∧ SpecAccepts [] := by
  refine ⟨rfl, ?_⟩
  unfold SpecAccepts
  refine ⟨by simp, by simp, by simp, by simp, by simp, by simp, by simp, by simp, ?_⟩
  intro hcyc
  unfold HasCycleSpec at hcyc
  obtain ⟨x, hx⟩ := hcyc
  cases hx with
  | single he =>
    obtain ⟨r, hr, -⟩ := he
    exact absurd hr (List.not_mem_nil r)
  | tail h1 he =>
    obtain ⟨r, hr, -⟩ := he
    exact absurd hr (List.not_mem_nil r)

/-- C5 (amended): validate_risk_data returns normally if and only if
the dataset is non-empty AND all ids are unique, every duration and
demand is positive, every cost and score and residual score is
non-negative, residual does not exceed score, every predecessor id
exists in the dataset, no task lists itself as a predecessor, and the
predecessor graph is acyclic; it raises a validation error exactly
when one of these conditions (including non-emptiness, which the claim
omits) fails. -/
theorem validator_accepts_iff (ds : List RiskTask) :
    validateRiskData ds = Except.ok () ↔ (ds ≠ [] ∧ SpecAccepts ds) := by
  unfold validateRiskData
  split_ifs with h0 h1 h2 h3 h4 h5 h6
  · simp only [List.isEmpty_iff] at h0
    constructor
    · intro hc
      exact hc.elim
    · rintro ⟨hne, -⟩
      exact hne h0
  · simp only [List.any_eq_true, decide_eq_true_eq] at h2
    obtain ⟨r, hr, hrl⟩ := h2
    constructor
    · intro hc
      exact hc.elim
    · rintro ⟨-, hacc⟩
      unfold SpecAccepts at hacc
      obtain ⟨-, hlead, -⟩ := hacc
      have := hlead r hr
      omega
  · simp only [List.any_eq_true, decide_eq_true_eq] at h3
    obtain ⟨r, hr, hrl⟩ := h3
    constructor
    · intro hc
      exact hc.elim
    · rintro ⟨-, hacc⟩
      unfold SpecAccepts at hacc
      obtain ⟨-, -, hcap, -⟩ := hacc
      have := hcap r hr
      omega
  · simp only [List.any_eq_true, decide_eq_true_eq] at h4
    obtain ⟨r, hr, hrl⟩ := h4
    constructor
    · intro hc
      exact hc.elim
    · rintro ⟨-, hacc⟩
      unfold SpecAccepts at hacc
      obtain ⟨-, -, -, hcta, -⟩ := hacc
      exact absurd (hcta r hr) (not_le.mpr hrl)
  · simp only [Bool.or_eq_true, List.any_eq_true, decide_eq_true_eq] at h5
    constructor
    · intro hc
      exact hc.elim
    · rintro ⟨-, hacc⟩
      unfold SpecAccepts at hacc
      obtain ⟨-, -, -, -, hsc, -⟩ := hacc
      rcases h5 with ⟨r, hr, hlt⟩ | ⟨r, hr, hlt⟩
      · exact absurd (hsc r hr).1 (not_le.mpr hlt)
      · exact absurd (hsc r hr).2 (not_le.mpr hlt)
  · simp only [List.any_eq_true, decide_eq_true_eq] at h6
    obtain ⟨r, hr, hlt⟩ := h6
    constructor
    · intro hc
      exact hc.elim
    · rintro ⟨-, hacc⟩
      unfold SpecAccepts at hacc
      obtain ⟨-, -, -, -, -, hrl, -⟩ := hacc
      exact absurd (hrl r hr) (not_le.mpr hlt)
  · have hne : ds ≠ [] := by
      intro hh
      exact h0 (by rw [hh]; rfl)
    have hlead : ∀ r ∈ ds, 0 < r.leadTime := by
      intro r hr
      by_contra hcon
      exact h2 (List.any_eq_true.mpr ⟨r, hr, decide_eq_true (by omega)⟩)
    have hcap : ∀ r ∈ ds, 0 < r.capacity := by
      intro r hr
      by_contra hcon
      exact h3 (List.any_eq_true.mpr ⟨r, hr, decide_eq_true (by omega)⟩)
    have hcta : ∀ r ∈ ds, 0 ≤ r.cta := by
      intro r hr
      by_contra hcon
      exact h4 (List.any_eq_true.mpr ⟨r, hr, decide_eq_true (not_le.mp hcon)⟩)
    have hsc : ∀ r ∈ ds, 0 ≤ r.score ∧ 0 ≤ r.resScore := by
      intro r hr
      constructor
      · by_contra hcon
        have hx : (ds.any fun q => decide (q.score < 0)) = true ∨
            (ds.any fun q => decide (q.resScore < 0)) = true :=
          Or.inl (List.any_eq_true.mpr ⟨r, hr, decide_eq_true (not_le.mp hcon)⟩)
        exact h5 (by simp only [Bool.or_eq_true]; exact hx)
      · by_contra hcon
        have hx : (ds.any fun q => decide (q.score < 0)) = true ∨
            (ds.any fun q => decide (q.resScore < 0)) = true :=
          Or.inr (List.any_eq_true.mpr ⟨r, hr, decide_eq_true (not_le.mp hcon)⟩)
        exact h5 (by simp only [Bool.or_eq_true]; exact hx)
    have hrl : ∀ r ∈ ds, r.resScore ≤ r.score := by
      intro r hr
      by_contra hcon
      exact h6 (List.any_eq_true.mpr ⟨r, hr, decide_eq_true (not_le.mp hcon)⟩)
    cases hcp : checkPreds (ds.map (fun r => r.id)) ds with
    | error e =>
      constructor
      · intro hc
        exact Except.noConfusion hc
      · rintro ⟨-, hacc⟩
        unfold SpecAccepts at hacc
        obtain ⟨-, -, -, -, -, -, hex, hself, -⟩ := hacc
        have hok : checkPreds (ds.map (fun r => r.id)) ds = Except.ok () :=
          (checkPreds_ok_iff (ds.map (fun r => r.id)) ds).mpr
            (fun r hr p hp => ⟨hex r hr p hp, fun heq => hself r hr (heq ▸ hp)⟩)
        rw [hcp] at hok
        exact Except.noConfusion hok
    | ok u =>
      show ensureAcyclicDependencyGraph ds = Except.ok () ↔ _
      rw [ensureAcyclic_ok_iff]
      have hrows := (checkPreds_ok_iff (ds.map (fun r => r.id)) ds).mp (by rw [hcp])
      have hex : ∀ r ∈ ds, ∀ p ∈ r.predecessors, p ∈ ds.map (fun q => q.id) :=
        fun r hr p hp => (hrows r hr p hp).1
      have hself : ∀ r ∈ ds, r.id ∉ r.predecessors := by
        intro r hr hmem
        exact (hrows r hr r.id hmem).2 rfl
      constructor
      · intro hnocyc
        refine ⟨hne, h1, hlead, hcap, hcta, hsc, hrl, hex, hself, ?_⟩
        rw [hasCycleSpec_iff_gedge ds h1 hex]
        exact hnocyc
      · rintro ⟨-, hacc⟩
        unfold SpecAccepts at hacc
        obtain ⟨-, -, -, -, -, -, -, -, hnocyc⟩ := hacc
        rw [hasCycleSpec_iff_gedge ds h1 hex] at hnocyc
        exact hnocyc
  · constructor
    · intro hc
      exact hc.elim
    · rintro ⟨-, hacc⟩
      unfold SpecAccepts at hacc
      exact h1 hacc.1
